import Mathlib

/-!
Ramdisk patch pipeline of the jflte patchers.

A shallow embedding of `src/libmbp/ramdiskpatchers/coreramdiskpatcher.cpp` and
`src/libdbp/ramdiskpatchers/jflte/jflteramdiskpatcher.cpp`.

* A `std::string` / `std::vector<unsigned char>` is a `List Char`, one `Char` per byte.
* The archive (`CpioFile`), the error value (`PatcherError`), the regex library and the
  `QcomRamdiskPatcher` / `GalaxyRamdiskPatcher` steps are declared outside the two source
  files; they are modelled or taken as parameters below, each where it is introduced.
-/

/-! ## Line editing: `boost::split`, `boost::join`, `boost::starts_with` -/

/-- The call `boost::split(lines, s, pred)` with the default `token_compress_off`: every
separator byte ends a token, so the result always has one more token than `s` has
separators (the empty string gives one empty token). -/
def split (isSep : Char → Bool) : List Char → List (List Char)
  | [] => [[]]
  | c :: cs =>
    if isSep c then [] :: split isSep cs
    else
      match split isSep cs with
      | [] => [[c]]
      | l :: ls => (c :: l) :: ls

/-- The predicate `boost::is_any_of(chars)`. -/
def is_any_of (chars : List Char) (c : Char) : Bool := chars.contains c

/-- The call `boost::join(lines, sep)`: the elements with `sep` between neighbours. -/
def join (sep : List Char) : List (List Char) → List Char
  | [] => []
  | [l] => l
  | l :: l2 :: ls => l ++ sep ++ join sep (l2 :: ls)

/-- The literal `"\n"` both patchers split on and join with. -/
def nl : List Char := "\n".toList

/-- The call `boost::starts_with(s, pre)`. -/
def starts_with (s pre : List Char) : Bool := pre.isPrefixOf s

/-! ## The archive and the error value -/

/-- Modelled from the spec: the archive content store (class `CpioFile`, declared outside
the source files): "mapping from file path (string) to byte content; supports
`exists(path)`, `read(path) -> bytes | empty-if-absent`, `write(path, bytes)`", where
`write` replaces the content of an existing entry and creates none. A cpio archive is a
sequence of named entries; the first entry of a name is the one addressed. -/
abbrev CpioFile := List (List Char × List Char)

/-- Modelled from the spec: `exists(path) -> bool`. -/
def CpioFile.«exists» : CpioFile → List Char → Bool
  | [], _ => false
  | (n, _) :: rest, name => if n = name then true else CpioFile.«exists» rest name

/-- Modelled from the spec: `read(path) -> bytes | empty-if-absent`. -/
def CpioFile.contents : CpioFile → List Char → List Char
  | [], _ => []
  | (n, d) :: rest, name => if n = name then d else CpioFile.contents rest name

/-- Modelled from the spec: `write(path, bytes)`, which rewrites the content of the entry
and never creates one. -/
def CpioFile.setContents : CpioFile → List Char → List Char → CpioFile
  | [], _, _ => []
  | (n, d) :: rest, name, data =>
    if n = name then (n, data) :: rest else (n, d) :: CpioFile.setContents rest name data

/-- Modelled from the spec: the kinds of error ("a kind drawn from EntryNotFound,
MalformedContent"); `MBP::ErrorCode` is declared outside the source files.
`CpioFileNotExistError` is the entry-not-found kind, `NoError` the value of a freshly
constructed `PatcherError`, and `OtherError` stands for the codes the two files never
name. -/
inductive ErrorCode where
  | NoError
  | CpioFileNotExistError
  | OtherError (code : Nat)
  deriving DecidableEq, Repr

/-- Modelled from the spec: the error value, "a tagged value with a kind and the entry
path it relates to" (class `PatcherError`, declared outside the source files). -/
structure PatcherError where
  errorCode : ErrorCode
  filename : List Char
  deriving DecidableEq, Repr

/-- A default-constructed `PatcherError`. -/
instance : Inhabited PatcherError := ⟨⟨ErrorCode.NoError, []⟩⟩

/-- The factory `PatcherError::createCpioError(code, filename)`. -/
def PatcherError.createCpioError (code : ErrorCode) (filename : List Char) : PatcherError :=
  ⟨code, filename⟩

/-! ## The regex library

`private/regex.h`, which binds `MBP_regex` and `MBP_regex_search` to a regex library, is
not among the sources. The patchers take the search function as a parameter; the
patterns are the literals of the source. -/

/-- The type of `MBP_regex_search(subject, MBP_regex(pattern))`. -/
abbrev RegexSearch := List Char → List Char → Bool

/-- The atoms of the reference engine: a literal byte, `.`, and `\s`. -/
inductive RxAtom where
  | lit (c : Char)
  | any
  | space
  deriving DecidableEq, Repr

/-- The quantifiers of the reference engine: none, `*`, `+`. -/
inductive RxQuant where
  | one
  | star
  | plus
  deriving DecidableEq, Repr

/-- The tokens of a pattern. -/
inductive RxTok where
  | atom (a : RxAtom)
  | star
  | plus
  deriving DecidableEq, Repr

/-- Whether an atom accepts a byte: `.` is every byte but the line terminators, `\s` the
white-space bytes. -/
def RxAtom.test : RxAtom → Char → Bool
  | RxAtom.lit c, x => x == c
  | RxAtom.any, x => !(x == '\n' || x == '\r')
  | RxAtom.space, x =>
    x == ' ' || x == '\t' || x == '\n' || x == '\r' || x == '\x0b' || x == '\x0c'

/-- The tokens of a pattern string. -/
def rxToks : List Char → List RxTok
  | [] => []
  | '\\' :: 's' :: r => RxTok.atom RxAtom.space :: rxToks r
  | '.' :: r => RxTok.atom RxAtom.any :: rxToks r
  | '*' :: r => RxTok.star :: rxToks r
  | '+' :: r => RxTok.plus :: rxToks r
  | c :: r => RxTok.atom (RxAtom.lit c) :: rxToks r

/-- Each atom with the quantifier that follows it. -/
def rxItems : List RxTok → List (RxAtom × RxQuant)
  | [] => []
  | RxTok.atom a :: RxTok.star :: r => (a, RxQuant.star) :: rxItems r
  | RxTok.atom a :: RxTok.plus :: r => (a, RxQuant.plus) :: rxItems r
  | RxTok.atom a :: r => (a, RxQuant.one) :: rxItems r
  | _ :: r => rxItems r

/-- Whether the rest of a pattern accepts the empty string. -/
def rxNullable : List (RxAtom × RxQuant) → Bool
  | [] => true
  | (_, RxQuant.star) :: r => rxNullable r
  | _ :: _ => false

/-- The rests of the pattern after one byte `c` has been read. -/
def rxStep (c : Char) : List (RxAtom × RxQuant) → List (List (RxAtom × RxQuant))
  | [] => []
  | (a, RxQuant.one) :: r => if a.test c then [r] else []
  | (a, RxQuant.plus) :: r => if a.test c then [(a, RxQuant.star) :: r] else []
  | (a, RxQuant.star) :: r =>
    (if a.test c then [(a, RxQuant.star) :: r] else []) ++ rxStep c r

/-- Unanchored search: a new attempt `p` starts at every position, next to the attempts
`states` still running. -/
def rxRun (p : List (RxAtom × RxQuant)) (states : List (List (RxAtom × RxQuant))) :
    List Char → Bool
  | [] => (p :: states).any rxNullable
  | c :: cs =>
    (p :: states).any rxNullable ||
      rxRun p ((p :: states).foldr (fun s acc => rxStep c s ++ acc) []) cs

/-- A reference regex engine for the patterns of the source (literal bytes, `.`, `\s`,
postfix `*` and `+`), searching as `regex_search` does: the subject matches when some
substring of it matches the pattern. It instantiates the engine parameter in the
examples. -/
def refSearch : RegexSearch := fun subject pattern => rxRun (rxItems (rxToks pattern)) [] subject

/-! ## `coreramdiskpatcher.cpp` -/

/-- The constant `DataMediaContext`. -/
def DataMediaContext : List Char := "/data/media(/.*)? u:object_r:media_rw_data_file:s0".toList

/-- The constant `FileContexts`. -/
def FileContexts : List Char := "file_contexts".toList

/-- The state `CoreRamdiskPatcher::Impl`: the archive `cpio` points to, and the error.
The pointers `pc` and `info` are read by no method of the file and are left out. -/
structure CoreRamdiskPatcher.Impl where
  cpio : CpioFile
  error : PatcherError
  deriving DecidableEq, Repr

/-- The constructor `CoreRamdiskPatcher::CoreRamdiskPatcher`, bound to an archive. -/
def CoreRamdiskPatcher.new (cpio : CpioFile) : CoreRamdiskPatcher.Impl := ⟨cpio, default⟩

/-- The loop of `fixDataMediaContext` over the lines: whether some line starts with
`/data/media`. -/
def hasDataMediaContextLoop (hasDataMediaContext : Bool) : List (List Char) → Bool
  | [] => hasDataMediaContext
  | line :: rest =>
    if starts_with line "/data/media".toList then hasDataMediaContextLoop true rest
    else hasDataMediaContextLoop hasDataMediaContext rest

/-- The method `CoreRamdiskPatcher::fixDataMediaContext`: the returned flag and the state
after the call. -/
def CoreRamdiskPatcher.fixDataMediaContext (m : CoreRamdiskPatcher.Impl) :
    Bool × CoreRamdiskPatcher.Impl :=
  if !m.cpio.«exists» FileContexts then (true, m)
  else
    let contents := m.cpio.contents FileContexts
    let lines := split (is_any_of nl) contents
    let hasDataMediaContext := hasDataMediaContextLoop false lines
    let lines := if !hasDataMediaContext then lines ++ [DataMediaContext] else lines
    let strContents := join nl lines
    (true, { m with cpio := m.cpio.setContents FileContexts strContents })

/-- The method `CoreRamdiskPatcher::patchRamdisk`. -/
def CoreRamdiskPatcher.patchRamdisk (m : CoreRamdiskPatcher.Impl) :
    Bool × CoreRamdiskPatcher.Impl :=
  let r := CoreRamdiskPatcher.fixDataMediaContext m
  if !r.1 then (false, r.2) else (true, r.2)

/-- The method `CoreRamdiskPatcher::error`. -/
def CoreRamdiskPatcher.error (m : CoreRamdiskPatcher.Impl) : PatcherError := m.error

/-! ## The steps declared outside the source files -/

/-- The skin-variant tag `getwVersion`: the empty string of a fresh `Impl`, or one of the
constants `GalaxyRamdiskPatcher::JellyBean`, `GalaxyRamdiskPatcher::KitKat` (declared
outside the source files). -/
inductive GetwVersion where
  | unset
  | JellyBean
  | KitKat
  deriving DecidableEq, Repr

/-- The three calls of `QcomRamdiskPatcher` the pipelines make. The class is declared
outside the source files, so each call is a parameter: a function from the archive to
either the error the patcher then reports through `error()` or the updated archive. -/
structure QcomRamdiskPatcher where
  addMissingCacheInFstab : List (List Char) → CpioFile → Except PatcherError CpioFile
  stripManualCacheMounts : List Char → CpioFile → Except PatcherError CpioFile
  useGeneratedFstab : List Char → CpioFile → Except PatcherError CpioFile

/-- The call of `GalaxyRamdiskPatcher` the pipelines make, for a patcher constructed with
the given tag; a parameter like the calls of `QcomRamdiskPatcher`. -/
structure GalaxyRamdiskPatcher where
  getwModifyMsm8960LpmRc : GetwVersion → CpioFile → Except PatcherError CpioFile

/-! ## `jflteramdiskpatcher.cpp` -/

/-- The constant `InitRc`. -/
def InitRc : List Char := "init.rc".toList

/-- The constant `Msm8960LpmRc`. -/
def Msm8960LpmRc : List Char := "MSM8960_lpm.rc".toList

/-- The state `JflteBaseRamdiskPatcher::Impl`: the archive `cpio` points to, the tag and
the error. The pointers `pc` and `info` are only handed on to the other patchers and are
left out. -/
structure JflteBaseRamdiskPatcher.Impl where
  cpio : CpioFile
  getwVersion : GetwVersion
  error : PatcherError
  deriving DecidableEq, Repr

/-- The constructor `JflteBaseRamdiskPatcher::JflteBaseRamdiskPatcher`. -/
def JflteBaseRamdiskPatcher.new (cpio : CpioFile) : JflteBaseRamdiskPatcher.Impl :=
  ⟨cpio, GetwVersion.unset, default⟩

/-- The method `JflteBaseRamdiskPatcher::error`. -/
def JflteBaseRamdiskPatcher.error (m : JflteBaseRamdiskPatcher.Impl) : PatcherError := m.error

/-- The first line `geChargerModeMount` writes at a matching mount line. -/
def startLine : List Char := "    start mbtool-charger".toList

/-- The second line `geChargerModeMount` writes at a matching mount line. -/
def waitLine : List Char := "    wait /.fstab.jgedlte.completed 15".toList

/-- The first pattern of `geChargerModeMount`. -/
def mountSystemRegex : List Char := "mount.*/system".toList

/-- The second pattern of `geChargerModeMount`. -/
def onChargerRegex : List Char := "on\\s+charger".toList

/-- The service declaration line, first of the lines pushed back after the loop. -/
def serviceLine : List Char :=
  "service mbtool-charger /mbtool mount_fstab /fstab.jgedlte".toList

/-- The four lines `geChargerModeMount` pushes back after its loop. -/
def serviceStanza : List (List Char) :=
  [serviceLine,
   "    class core".toList,
   "    critical".toList,
   "    oneshot".toList]

/-- The loop of `geChargerModeMount` from the iterator position on. At a match,
`lines.insert(it, ...)` puts the start line before the current element, `++it` moves back
onto that element and `*it = ...` overwrites it with the wait line, which then becomes
`previousLine`. -/
def geChargerModeMountLoop (re : RegexSearch) (previousLine : List Char) :
    List (List Char) → List (List Char)
  | [] => []
  | line :: rest =>
    if re line mountSystemRegex && re previousLine onChargerRegex then
      startLine :: waitLine :: geChargerModeMountLoop re waitLine rest
    else
      line :: geChargerModeMountLoop re line rest

/-- The method `JflteGoogleEditionRamdiskPatcher::geChargerModeMount`. -/
def JflteGoogleEditionRamdiskPatcher.geChargerModeMount (re : RegexSearch)
    (m : JflteBaseRamdiskPatcher.Impl) : Bool × JflteBaseRamdiskPatcher.Impl :=
  let contents := m.cpio.contents InitRc
  if contents.isEmpty then
    (false, { m with error :=
      PatcherError.createCpioError ErrorCode.CpioFileNotExistError InitRc })
  else
    let lines := split (is_any_of nl) contents
    let lines := geChargerModeMountLoop re [] lines
    let lines := lines ++ serviceStanza
    let strContents := join nl lines
    (true, { m with cpio := m.cpio.setContents InitRc strContents })

/-- The constant `JflteAOSPRamdiskPatcher::Id`. -/
def JflteAOSPRamdiskPatcher.Id : List Char := "jflte/AOSP/AOSP".toList

/-- The constructor `JflteAOSPRamdiskPatcher::JflteAOSPRamdiskPatcher`. -/
def JflteAOSPRamdiskPatcher.new (cpio : CpioFile) : JflteBaseRamdiskPatcher.Impl :=
  JflteBaseRamdiskPatcher.new cpio

/-- The method `JflteAOSPRamdiskPatcher::id`. -/
def JflteAOSPRamdiskPatcher.id (_m : JflteBaseRamdiskPatcher.Impl) : List Char :=
  JflteAOSPRamdiskPatcher.Id

/-- The method `JflteAOSPRamdiskPatcher::patchRamdisk`. -/
def JflteAOSPRamdiskPatcher.patchRamdisk (qcomPatcher : QcomRamdiskPatcher)
    (m : JflteBaseRamdiskPatcher.Impl) : Bool × JflteBaseRamdiskPatcher.Impl :=
  let core := CoreRamdiskPatcher.patchRamdisk (CoreRamdiskPatcher.new m.cpio)
  if !core.1 then
    (false, { m with cpio := core.2.cpio, error := CoreRamdiskPatcher.error core.2 })
  else
    match qcomPatcher.addMissingCacheInFstab [] core.2.cpio with
    | Except.error e => (false, { m with cpio := core.2.cpio, error := e })
    | Except.ok c1 =>
      match qcomPatcher.stripManualCacheMounts "init.target.rc".toList c1 with
      | Except.error e => (false, { m with cpio := c1, error := e })
      | Except.ok c2 =>
        match qcomPatcher.useGeneratedFstab "init.target.rc".toList c2 with
        | Except.error e => (false, { m with cpio := c2, error := e })
        | Except.ok c3 => (true, { m with cpio := c3 })

/-- The constant `JflteGoogleEditionRamdiskPatcher::Id`. -/
def JflteGoogleEditionRamdiskPatcher.Id : List Char := "jflte/GoogleEdition/GoogleEdition".toList

/-- The constructor `JflteGoogleEditionRamdiskPatcher::JflteGoogleEditionRamdiskPatcher`. -/
def JflteGoogleEditionRamdiskPatcher.new (cpio : CpioFile) : JflteBaseRamdiskPatcher.Impl :=
  let m := JflteBaseRamdiskPatcher.new cpio
  if m.cpio.«exists» Msm8960LpmRc then { m with getwVersion := GetwVersion.JellyBean }
  else { m with getwVersion := GetwVersion.KitKat }

/-- The method `JflteGoogleEditionRamdiskPatcher::id`. -/
def JflteGoogleEditionRamdiskPatcher.id (_m : JflteBaseRamdiskPatcher.Impl) : List Char :=
  JflteGoogleEditionRamdiskPatcher.Id

/-- The method `JflteGoogleEditionRamdiskPatcher::patchRamdisk`. -/
def JflteGoogleEditionRamdiskPatcher.patchRamdisk (re : RegexSearch)
    (qcomPatcher : QcomRamdiskPatcher) (galaxyPatcher : GalaxyRamdiskPatcher)
    (m : JflteBaseRamdiskPatcher.Impl) : Bool × JflteBaseRamdiskPatcher.Impl :=
  let core := CoreRamdiskPatcher.patchRamdisk (CoreRamdiskPatcher.new m.cpio)
  if !core.1 then
    (false, { m with cpio := core.2.cpio, error := CoreRamdiskPatcher.error core.2 })
  else
    let ge := JflteGoogleEditionRamdiskPatcher.geChargerModeMount re
      { m with cpio := core.2.cpio }
    if !ge.1 then (false, ge.2)
    else
      match qcomPatcher.addMissingCacheInFstab [] ge.2.cpio with
      | Except.error e => (false, { ge.2 with error := e })
      | Except.ok c1 =>
        match qcomPatcher.stripManualCacheMounts "init.target.rc".toList c1 with
        | Except.error e => (false, { ge.2 with cpio := c1, error := e })
        | Except.ok c2 =>
          match qcomPatcher.useGeneratedFstab "init.target.rc".toList c2 with
          | Except.error e => (false, { ge.2 with cpio := c2, error := e })
          | Except.ok c3 =>
            match galaxyPatcher.getwModifyMsm8960LpmRc m.getwVersion c3 with
            | Except.error e => (false, { ge.2 with cpio := c3, error := e })
            | Except.ok c4 => (true, { ge.2 with cpio := c4 })

/-- The constant `JflteTouchWizRamdiskPatcher::Id`. -/
def JflteTouchWizRamdiskPatcher.Id : List Char := "jflte/TouchWiz/TouchWiz".toList

/-- The constructor `JflteTouchWizRamdiskPatcher::JflteTouchWizRamdiskPatcher`. -/
def JflteTouchWizRamdiskPatcher.new (cpio : CpioFile) : JflteBaseRamdiskPatcher.Impl :=
  let m := JflteBaseRamdiskPatcher.new cpio
  if m.cpio.«exists» Msm8960LpmRc then { m with getwVersion := GetwVersion.JellyBean }
  else { m with getwVersion := GetwVersion.KitKat }

/-- The method `JflteTouchWizRamdiskPatcher::id`. -/
def JflteTouchWizRamdiskPatcher.id (_m : JflteBaseRamdiskPatcher.Impl) : List Char :=
  JflteTouchWizRamdiskPatcher.Id

/-- The method `JflteTouchWizRamdiskPatcher::patchRamdisk`. -/
def JflteTouchWizRamdiskPatcher.patchRamdisk (qcomPatcher : QcomRamdiskPatcher)
    (galaxyPatcher : GalaxyRamdiskPatcher)
    (m : JflteBaseRamdiskPatcher.Impl) : Bool × JflteBaseRamdiskPatcher.Impl :=
  let core := CoreRamdiskPatcher.patchRamdisk (CoreRamdiskPatcher.new m.cpio)
  if !core.1 then
    (false, { m with cpio := core.2.cpio, error := CoreRamdiskPatcher.error core.2 })
  else
    match qcomPatcher.addMissingCacheInFstab [] core.2.cpio with
    | Except.error e => (false, { m with cpio := core.2.cpio, error := e })
    | Except.ok c1 =>
      match qcomPatcher.stripManualCacheMounts "init.target.rc".toList c1 with
      | Except.error e => (false, { m with cpio := c1, error := e })
      | Except.ok c2 =>
        match qcomPatcher.useGeneratedFstab "init.target.rc".toList c2 with
        | Except.error e => (false, { m with cpio := c2, error := e })
        | Except.ok c3 =>
          match galaxyPatcher.getwModifyMsm8960LpmRc m.getwVersion c3 with
          | Except.error e => (false, { m with cpio := c3, error := e })
          | Except.ok c4 => (true, { m with cpio := c4 })

/-! ## The pipeline rule of the spec -/

/-- A step of a pipeline as the spec sees it: a function from the archive to either an
error or the updated archive. -/
abbrev Step := CpioFile → Except PatcherError CpioFile

/-- Core Fixups as a step: `CoreRamdiskPatcher::patchRamdisk` on a fresh core patcher
bound to the archive. -/
def coreFixupsStep : Step := fun cpio =>
  let r := CoreRamdiskPatcher.patchRamdisk (CoreRamdiskPatcher.new cpio)
  if r.1 then Except.ok r.2.cpio else Except.error (CoreRamdiskPatcher.error r.2)

/-- Charger-mode injection as a step: `geChargerModeMount` on the archive. -/
def chargerModeStep (re : RegexSearch) : Step := fun cpio =>
  let r := JflteGoogleEditionRamdiskPatcher.geChargerModeMount re
    (JflteBaseRamdiskPatcher.new cpio)
  if r.1 then Except.ok r.2.cpio else Except.error (JflteBaseRamdiskPatcher.error r.2)

/-- The three platform calls, in the order of the spec. -/
def platformSteps (qcomPatcher : QcomRamdiskPatcher) : List Step :=
  [qcomPatcher.addMissingCacheInFstab [],
   qcomPatcher.stripManualCacheMounts "init.target.rc".toList,
   qcomPatcher.useGeneratedFstab "init.target.rc".toList]

/-- The steps of the Plain (AOSP) pipeline, in the order of the spec. -/
def aospSteps (qcomPatcher : QcomRamdiskPatcher) : List Step :=
  coreFixupsStep :: platformSteps qcomPatcher

/-- The steps of the Reference-edition (GoogleEdition) pipeline, in the order of the
spec. -/
def googleEditionSteps (re : RegexSearch) (qcomPatcher : QcomRamdiskPatcher)
    (galaxyPatcher : GalaxyRamdiskPatcher) (getwVersion : GetwVersion) : List Step :=
  coreFixupsStep :: chargerModeStep re ::
    (platformSteps qcomPatcher ++ [galaxyPatcher.getwModifyMsm8960LpmRc getwVersion])

/-- The steps of the Vendor-UI (TouchWiz) pipeline, in the order of the spec. -/
def touchWizSteps (qcomPatcher : QcomRamdiskPatcher)
    (galaxyPatcher : GalaxyRamdiskPatcher) (getwVersion : GetwVersion) : List Step :=
  coreFixupsStep ::
    (platformSteps qcomPatcher ++ [galaxyPatcher.getwModifyMsm8960LpmRc getwVersion])

/-- Sequential composition of steps: the archive after all of them, or the error of the
first one that fails. -/
def applySteps : List Step → CpioFile → Except PatcherError CpioFile
  | [], cpio => Except.ok cpio
  | step :: rest, cpio =>
    match step cpio with
    | Except.error e => Except.error e
    | Except.ok cpio2 => applySteps rest cpio2

/-- The transition rule of the spec on a pipeline state: run the steps in order on the
shared archive; on the first error stop, record it and report failure. -/
def runSteps : List Step → JflteBaseRamdiskPatcher.Impl → Bool × JflteBaseRamdiskPatcher.Impl
  | [], m => (true, m)
  | step :: rest, m =>
    match step m.cpio with
    | Except.error e => (false, { m with error := e })
    | Except.ok cpio2 => runSteps rest { m with cpio := cpio2 }

/-- The first failing step of a list of steps run in order: its position, the archive it
failed on and its error; `none` when every step succeeds. -/
def firstFailure : List Step → CpioFile → Option (Nat × CpioFile × PatcherError)
  | [], _ => none
  | step :: rest, cpio =>
    match step cpio with
    | Except.error e => some (0, cpio, e)
    | Except.ok cpio2 => (firstFailure rest cpio2).map (fun r => (r.1 + 1, r.2))

/-! ## Injection points of the charger-mode scan -/

/-- The decisions of the loop of `geChargerModeMount`, one per input line: `true` where
the line matches `mount.*/system` while `previousLine` matches `on\s+charger` (an
injection point), with `previousLine` carried on as the loop does. -/
def injectionPoints (re : RegexSearch) (previousLine : List Char) :
    List (List Char) → List Bool
  | [] => []
  | line :: rest =>
    if re line mountSystemRegex && re previousLine onChargerRegex then
      true :: injectionPoints re waitLine rest
    else
      false :: injectionPoints re line rest

/-- The lines with every line at an injection point replaced by the start line and the
wait line, and every other line kept in its place. -/
def replaceInjectionPoints : List (List Char) → List Bool → List (List Char)
  | line :: rest, flag :: flags =>
    (if flag then [startLine, waitLine] else [line]) ++ replaceInjectionPoints rest flags
  | _, _ => []

/-! ## Example data -/

/-- An init script with a mount of `/system` right after the charger trigger, followed
by unrelated lines. -/
def exampleInitRc : List Char :=
  "on charger\n    mount ext4 /dev/x /system ro\n    class_start charger\n".toList

/-- An archive that holds `exampleInitRc` as its `init.rc`. -/
def exampleCpio : CpioFile := [("default.prop".toList, "ro.x=1\n".toList), (InitRc, exampleInitRc)]

/-- An archive without `init.rc`. -/
def exampleCpioNoInitRc : CpioFile := [("default.prop".toList, "ro.x=1\n".toList)]

/-- The charger trigger line of `exampleInitRc`. -/
def exampleChargerLine : List Char := "on charger".toList

/-- The mount line of `exampleInitRc`. -/
def exampleMountLine : List Char := "    mount ext4 /dev/x /system ro".toList

/-- The line of `exampleInitRc` after the mount line. -/
def exampleOtherLine : List Char := "    class_start charger".toList

/-- An init script without a charger trigger, ending in a newline and holding a carriage
return. -/
def exampleInitRcNoCharger : List Char :=
  "on boot\r\n    mount ext4 /dev/x /system ro\n".toList

/-- A context table without a line for `/data/media`, ending in a newline. -/
def exampleFileContexts : List Char := "/data(/.*)? u:object_r:system_data_file:s0\n".toList

/-- A context table with a line for `/data/media`, an empty line and a final newline. -/
def exampleFileContextsFixed : List Char :=
  "/data(/.*)? u:object_r:system_data_file:s0\n\n/data/media(/.*)? u:object_r:x:s0\n".toList

/-- A platform patcher for the examples: every call needs its script to exist and
changes nothing. -/
def exampleQcomPatcher : QcomRamdiskPatcher where
  addMissingCacheInFstab := fun _ cpio => Except.ok cpio
  stripManualCacheMounts := fun name cpio =>
    if cpio.«exists» name then Except.ok cpio
    else Except.error (PatcherError.createCpioError ErrorCode.CpioFileNotExistError name)
  useGeneratedFstab := fun name cpio =>
    if cpio.«exists» name then Except.ok cpio
    else Except.error (PatcherError.createCpioError ErrorCode.CpioFileNotExistError name)

/-- A vendor-skin patcher for the examples: it needs `MSM8960_lpm.rc` to exist and
changes nothing. -/
def exampleGalaxyPatcher : GalaxyRamdiskPatcher where
  getwModifyMsm8960LpmRc := fun _ cpio =>
    if cpio.«exists» Msm8960LpmRc then Except.ok cpio
    else Except.error (PatcherError.createCpioError ErrorCode.CpioFileNotExistError
      Msm8960LpmRc)

/-- An archive on which every step of every example pipeline succeeds. -/
def exampleCpioFull : CpioFile :=
  [(FileContexts, exampleFileContexts), (InitRc, exampleInitRc),
   ("init.target.rc".toList, "on fs\n".toList), (Msm8960LpmRc, "on charger\n".toList)]

/-- The error of the two failing example patchers. -/
def exampleError : PatcherError :=
  PatcherError.createCpioError ErrorCode.CpioFileNotExistError "init.target.rc".toList

/-- A platform patcher whose first call fails with `exampleError`. -/
def exampleQcomFailsAtAdd : QcomRamdiskPatcher where
  addMissingCacheInFstab := fun _ _ => Except.error exampleError
  stripManualCacheMounts := fun _ cpio => Except.ok cpio
  useGeneratedFstab := fun _ cpio => Except.ok cpio

/-- A platform patcher whose second call fails with `exampleError`. -/
def exampleQcomFailsAtStrip : QcomRamdiskPatcher where
  addMissingCacheInFstab := fun _ cpio => Except.ok cpio
  stripManualCacheMounts := fun _ _ => Except.error exampleError
  useGeneratedFstab := fun _ cpio => Except.ok cpio

/-- An archive that holds the low-power-mode script `MSM8960_lpm.rc` and a context table
still to be fixed. -/
def exampleCpioLegacy : CpioFile :=
  [(FileContexts, exampleFileContexts), (Msm8960LpmRc, "on charger\n".toList)]

/-- An archive whose `init.rc` exists with zero bytes of content. -/
def exampleCpioEmptyInitRc : CpioFile :=
  [(InitRc, []), ("default.prop".toList, "ro.x=1\n".toList)]

/-- An init script with two mounts of `/system` in a row after the charger trigger. -/
def exampleInitRcTwoMounts : List Char :=
  "on charger\n    mount /system\n    mount /system".toList

/-! ## Lemmas on splitting and joining -/

theorem is_any_of_nl (c : Char) : is_any_of nl c = true ↔ c = '\n' := by
  simp [is_any_of, nl]

theorem split_ne_nil (p : Char → Bool) (s : List Char) : split p s ≠ [] := by
  induction s with
  | nil => simp [split]
  | cons c cs ih =>
    unfold split
    split
    · simp
    · split <;> simp

theorem join_cons_of_ne_nil (sep l : List Char) (ls : List (List Char)) (h : ls ≠ []) :
    join sep (l :: ls) = l ++ sep ++ join sep ls := by
  cases ls with
  | nil => exact absurd rfl h
  | cons a as => rfl

/-- Joining the lines of a split gives the content back, byte for byte. -/
theorem join_split (s : List Char) : join nl (split (is_any_of nl) s) = s := by
  induction s with
  | nil => rfl
  | cons c cs ih =>
    unfold split
    by_cases hc : is_any_of nl c = true
    · rw [if_pos hc, join_cons_of_ne_nil _ _ _ (split_ne_nil _ _), ih]
      have := (is_any_of_nl c).1 hc
      subst this
      rfl
    · rw [if_neg hc]
      cases hs : split (is_any_of nl) cs with
      | nil => exact absurd hs (split_ne_nil _ _)
      | cons l ls =>
        rw [hs] at ih
        cases ls with
        | nil =>
          simp only [join] at ih ⊢
          rw [ih]
        | cons l2 ls2 =>
          simp only [join] at ih ⊢
          rw [← ih]
          simp

/-- No line of a split holds the separator. -/
theorem not_mem_of_mem_split (s : List Char) :
    ∀ l ∈ split (is_any_of nl) s, '\n' ∉ l := by
  induction s with
  | nil => simp [split]
  | cons c cs ih =>
    unfold split
    by_cases hc : is_any_of nl c = true
    · rw [if_pos hc]
      intro l hl
      rcases List.mem_cons.1 hl with h | h
      · subst h; simp
      · exact ih l h
    · rw [if_neg hc]
      have hne : c ≠ '\n' := fun h => hc ((is_any_of_nl c).2 h)
      cases hs : split (is_any_of nl) cs with
      | nil => exact absurd hs (split_ne_nil _ _)
      | cons l ls =>
        rw [hs] at ih
        intro x hx
        rcases List.mem_cons.1 hx with h | h
        · subst h
          intro hmem
          rcases List.mem_cons.1 hmem with h1 | h1
          · exact hne h1.symm
          · exact ih l (List.mem_cons_self _ _) h1
        · exact ih x (List.mem_cons_of_mem _ h)

theorem split_append_nl (l : List Char) (hl : '\n' ∉ l) (s : List Char) :
    split (is_any_of nl) (l ++ nl ++ s) = l :: split (is_any_of nl) s := by
  induction l with
  | nil =>
    show split (is_any_of nl) ('\n' :: s) = _
    conv_lhs => unfold split
    rw [if_pos ((is_any_of_nl _).2 rfl)]
  | cons c cs ih =>
    have hc : c ≠ '\n' := fun h => hl (h ▸ List.mem_cons_self _ _)
    have hcs : '\n' ∉ cs := fun h => hl (List.mem_cons_of_mem _ h)
    show split (is_any_of nl) (c :: (cs ++ nl ++ s)) = _
    conv_lhs => unfold split
    rw [if_neg (fun h => hc ((is_any_of_nl c).1 h)), ih hcs]

theorem split_of_not_mem (l : List Char) (hl : '\n' ∉ l) : split (is_any_of nl) l = [l] := by
  induction l with
  | nil => rfl
  | cons c cs ih =>
    have hc : c ≠ '\n' := fun h => hl (h ▸ List.mem_cons_self _ _)
    have hcs : '\n' ∉ cs := fun h => hl (List.mem_cons_of_mem _ h)
    unfold split
    rw [if_neg (fun h => hc ((is_any_of_nl c).1 h)), ih hcs]

/-- Splitting the join of lines that hold no separator gives the lines back. -/
theorem split_join (ls : List (List Char)) (hne : ls ≠ []) (h : ∀ l ∈ ls, '\n' ∉ l) :
    split (is_any_of nl) (join nl ls) = ls := by
  induction ls with
  | nil => exact absurd rfl hne
  | cons l rest ih =>
    cases rest with
    | nil => exact split_of_not_mem l (h l (List.mem_cons_self _ _))
    | cons l2 rest2 =>
      show split (is_any_of nl) (l ++ nl ++ join nl (l2 :: rest2)) = _
      rw [split_append_nl l (h l (List.mem_cons_self _ _)),
        ih (by simp) (fun x hx => h x (List.mem_cons_of_mem _ hx))]

theorem join_append (sep : List Char) (xs ys : List (List Char)) (hx : xs ≠ [])
    (hy : ys ≠ []) : join sep (xs ++ ys) = join sep xs ++ sep ++ join sep ys := by
  induction xs with
  | nil => exact absurd rfl hx
  | cons x rest ih =>
    cases rest with
    | nil => exact join_cons_of_ne_nil sep x ys hy
    | cons x2 rest2 =>
      show x ++ sep ++ join sep ((x2 :: rest2) ++ ys) = x ++ sep ++ join sep (x2 :: rest2) ++ sep ++ join sep ys
      rw [ih (by simp)]
      simp [List.append_assoc]

/-! ## Lemmas on the archive -/

theorem CpioFile.contents_of_not_exists (a : CpioFile) (name : List Char)
    (h : a.«exists» name = false) : a.contents name = [] := by
  induction a with
  | nil => rfl
  | cons e rest ih =>
    obtain ⟨n, d⟩ := e
    by_cases hn : n = name
    · simp [CpioFile.«exists», hn] at h
    · simp only [CpioFile.«exists», if_neg hn] at h
      simp only [CpioFile.contents, if_neg hn]
      exact ih h

theorem CpioFile.exists_of_contents_ne_nil (a : CpioFile) (name : List Char)
    (h : a.contents name ≠ []) : a.«exists» name = true := by
  cases he : a.«exists» name with
  | true => rfl
  | false => exact absurd (CpioFile.contents_of_not_exists a name he) h

theorem CpioFile.contents_setContents (a : CpioFile) (name data : List Char)
    (h : a.«exists» name = true) : (a.setContents name data).contents name = data := by
  induction a with
  | nil => simp [CpioFile.«exists»] at h
  | cons e rest ih =>
    obtain ⟨n, d⟩ := e
    by_cases hn : n = name
    · simp [CpioFile.setContents, CpioFile.contents, hn]
    · simp only [CpioFile.«exists», if_neg hn] at h
      simp only [CpioFile.setContents, if_neg hn, CpioFile.contents]
      exact ih h

theorem CpioFile.exists_setContents (a : CpioFile) (name data other : List Char) :
    (a.setContents name data).«exists» other = a.«exists» other := by
  induction a with
  | nil => rfl
  | cons e rest ih =>
    obtain ⟨n, d⟩ := e
    by_cases hn : n = name
    · simp [CpioFile.setContents, CpioFile.«exists», hn]
    · simp only [CpioFile.setContents, if_neg hn, CpioFile.«exists», ih]

theorem CpioFile.contents_setContents_of_ne (a : CpioFile) (name data other : List Char)
    (h : other ≠ name) : (a.setContents name data).contents other = a.contents other := by
  induction a with
  | nil => rfl
  | cons e rest ih =>
    obtain ⟨n, d⟩ := e
    by_cases hn : n = name
    · have : ¬ name = other := fun h2 => h h2.symm
      simp [CpioFile.setContents, CpioFile.contents, hn, this]
    · simp only [CpioFile.setContents, if_neg hn, CpioFile.contents, ih]

theorem CpioFile.setContents_contents (a : CpioFile) (name : List Char) :
    a.setContents name (a.contents name) = a := by
  induction a with
  | nil => rfl
  | cons e rest ih =>
    obtain ⟨n, d⟩ := e
    by_cases hn : n = name
    · simp [CpioFile.setContents, CpioFile.contents, hn]
    · simp only [CpioFile.setContents, if_neg hn, CpioFile.contents, ih]

theorem CpioFile.setContents_of_not_exists (a : CpioFile) (name data : List Char)
    (h : a.«exists» name = false) : a.setContents name data = a := by
  induction a with
  | nil => rfl
  | cons e rest ih =>
    obtain ⟨n, d⟩ := e
    by_cases hn : n = name
    · simp [CpioFile.«exists», hn] at h
    · simp only [CpioFile.«exists», if_neg hn] at h
      simp only [CpioFile.setContents, if_neg hn, ih h]

/-! ## Lemmas on the loop of `geChargerModeMount` -/

theorem geChargerModeMountLoop_ne_nil (re : RegexSearch) (prev : List Char)
    (ls : List (List Char)) (h : ls ≠ []) : geChargerModeMountLoop re prev ls ≠ [] := by
  cases ls with
  | nil => exact absurd rfl h
  | cons l rest =>
    unfold geChargerModeMountLoop
    split <;> simp

theorem mem_geChargerModeMountLoop (re : RegexSearch) (ls : List (List Char)) :
    ∀ (prev : List Char), ∀ x ∈ geChargerModeMountLoop re prev ls,
      x ∈ ls ∨ x = startLine ∨ x = waitLine := by
  induction ls with
  | nil => intro prev x hx; simp [geChargerModeMountLoop] at hx
  | cons l rest ih =>
    intro prev x hx
    unfold geChargerModeMountLoop at hx
    split at hx
    · rcases List.mem_cons.1 hx with h | h
      · exact Or.inr (Or.inl h)
      · rcases List.mem_cons.1 h with h | h
        · exact Or.inr (Or.inr h)
        · rcases ih _ x h with h | h
          · exact Or.inl (List.mem_cons_of_mem _ h)
          · exact Or.inr h
    · rcases List.mem_cons.1 hx with h | h
      · exact Or.inl (h ▸ List.mem_cons_self _ _)
      · rcases ih _ x h with h | h
        · exact Or.inl (List.mem_cons_of_mem _ h)
        · exact Or.inr h

theorem geChargerModeMountLoop_cons_pos (re : RegexSearch) (prev l : List Char)
    (rest : List (List Char)) (h1 : re l mountSystemRegex = true)
    (h2 : re prev onChargerRegex = true) :
    geChargerModeMountLoop re prev (l :: rest) =
      startLine :: waitLine :: geChargerModeMountLoop re waitLine rest := by
  conv_lhs => unfold geChargerModeMountLoop
  simp [h1, h2]

theorem geChargerModeMountLoop_cons_neg (re : RegexSearch) (prev l : List Char)
    (rest : List (List Char))
    (h : ¬ (re l mountSystemRegex = true ∧ re prev onChargerRegex = true)) :
    geChargerModeMountLoop re prev (l :: rest) = l :: geChargerModeMountLoop re l rest := by
  conv_lhs => unfold geChargerModeMountLoop
  rw [if_neg]
  simpa using h

/-- The lines the loop leaves are free of the separator when the input lines are. -/
theorem not_mem_geChargerModeMountLoop (re : RegexSearch) (prev : List Char)
    (ls : List (List Char)) (h : ∀ l ∈ ls, '\n' ∉ l) :
    ∀ l ∈ geChargerModeMountLoop re prev ls, '\n' ∉ l := by
  intro l hl
  rcases mem_geChargerModeMountLoop re ls prev l hl with h1 | h1 | h1
  · exact h l h1
  · subst h1; decide
  · subst h1; decide

theorem not_mem_serviceStanza : ∀ l ∈ serviceStanza, '\n' ∉ l := by decide

/-- A scan over lines none of which is a mount line following a charger line changes
nothing. -/
theorem geChargerModeMountLoop_eq_self (re : RegexSearch) (ls : List (List Char)) :
    ∀ (prev : List Char),
      (∀ l, ls.head? = some l →
        ¬ (re l mountSystemRegex = true ∧ re prev onChargerRegex = true)) →
      (∀ pre a b post, ls = pre ++ a :: b :: post →
        ¬ (re b mountSystemRegex = true ∧ re a onChargerRegex = true)) →
      geChargerModeMountLoop re prev ls = ls := by
  induction ls with
  | nil => intro _ _ _; rfl
  | cons l rest ih =>
    intro prev h0 hadj
    rw [geChargerModeMountLoop_cons_neg re prev l rest (h0 l rfl), ih l]
    · intro b hb
      cases rest with
      | nil => simp at hb
      | cons b2 rest2 =>
        simp only [List.head?_cons, Option.some.injEq] at hb
        subst hb
        exact hadj [] l b2 rest2 rfl
    · intro pre a b post hrest
      exact hadj (l :: pre) a b post (by rw [hrest]; rfl)

/-- The scan distributes over the part before a line that is not replaced. -/
theorem geChargerModeMountLoop_append_keep (re : RegexSearch) (pre : List (List Char))
    (P : List Char) (hP : re P mountSystemRegex = false) (rest : List (List Char)) :
    ∀ (prev : List Char), geChargerModeMountLoop re prev (pre ++ P :: rest) =
      geChargerModeMountLoop re prev pre ++ P :: geChargerModeMountLoop re P rest := by
  induction pre with
  | nil =>
    intro prev
    rw [List.nil_append, geChargerModeMountLoop_cons_neg re prev P rest (by simp [hP])]
    rfl
  | cons l pre2 ih =>
    intro prev
    by_cases h : re l mountSystemRegex = true ∧ re prev onChargerRegex = true
    · rw [List.cons_append, geChargerModeMountLoop_cons_pos re prev l _ h.1 h.2,
        geChargerModeMountLoop_cons_pos re prev l _ h.1 h.2, ih]
      rfl
    · rw [List.cons_append, geChargerModeMountLoop_cons_neg re prev l _ h,
        geChargerModeMountLoop_cons_neg re prev l _ h, ih]
      rfl

/-- Wherever a mount line follows a charger line, the scan writes the start line and the
wait line next to each other. -/
theorem startLine_waitLine_infix (re : RegexSearch) (pre : List (List Char))
    (P L : List Char) (post : List (List Char)) (hL : re L mountSystemRegex = true)
    (hP : re P onChargerRegex = true) :
    ∀ (prev : List Char), ∃ A B, geChargerModeMountLoop re prev (pre ++ P :: L :: post) =
      A ++ startLine :: waitLine :: B := by
  induction pre with
  | nil =>
    intro prev
    by_cases h : re P mountSystemRegex = true ∧ re prev onChargerRegex = true
    · exact ⟨[], _, geChargerModeMountLoop_cons_pos re prev P _ h.1 h.2⟩
    · refine ⟨[P], geChargerModeMountLoop re waitLine post, ?_⟩
      rw [List.nil_append, geChargerModeMountLoop_cons_neg re prev P _ h,
        geChargerModeMountLoop_cons_pos re P L _ hL hP]
      rfl
  | cons l pre2 ih =>
    intro prev
    by_cases h : re l mountSystemRegex = true ∧ re prev onChargerRegex = true
    · exact ⟨[], _, geChargerModeMountLoop_cons_pos re prev l _ h.1 h.2⟩
    · obtain ⟨A, B, hAB⟩ := ih l
      refine ⟨l :: A, B, ?_⟩
      rw [List.cons_append, geChargerModeMountLoop_cons_neg re prev l _ h, hAB]
      rfl

/-- The result of `geChargerModeMount` on a state whose `init.rc` is not empty. -/
theorem geChargerModeMount_of_ne_nil (re : RegexSearch) (m : JflteBaseRamdiskPatcher.Impl)
    (h : m.cpio.contents InitRc ≠ []) :
    JflteGoogleEditionRamdiskPatcher.geChargerModeMount re m =
      (true, { m with cpio := (m.cpio.setContents InitRc
        (join nl (geChargerModeMountLoop re [] (split (is_any_of nl) (m.cpio.contents InitRc))
          ++ serviceStanza))) }) := by
  unfold JflteGoogleEditionRamdiskPatcher.geChargerModeMount
  simp [h]

/-- The result of `geChargerModeMount` on a state whose `init.rc` reads as empty. -/
theorem geChargerModeMount_of_nil (re : RegexSearch) (m : JflteBaseRamdiskPatcher.Impl)
    (h : m.cpio.contents InitRc = []) :
    JflteGoogleEditionRamdiskPatcher.geChargerModeMount re m =
      (false, { m with error :=
        PatcherError.createCpioError ErrorCode.CpioFileNotExistError InitRc }) := by
  unfold JflteGoogleEditionRamdiskPatcher.geChargerModeMount
  simp [h]

/-- The content of `init.rc` after `geChargerModeMount` on a non-empty `init.rc`. -/
theorem geChargerModeMount_contents (re : RegexSearch) (m : JflteBaseRamdiskPatcher.Impl)
    (h : m.cpio.contents InitRc ≠ []) :
    (JflteGoogleEditionRamdiskPatcher.geChargerModeMount re m).2.cpio.contents InitRc =
      join nl (geChargerModeMountLoop re [] (split (is_any_of nl) (m.cpio.contents InitRc))
        ++ serviceStanza) := by
  rw [geChargerModeMount_of_ne_nil re m h]
  exact CpioFile.contents_setContents _ _ _ (CpioFile.exists_of_contents_ne_nil _ _ h)

/-- The lines of `init.rc` after `geChargerModeMount` on a non-empty `init.rc`. -/
theorem geChargerModeMount_lines (re : RegexSearch) (m : JflteBaseRamdiskPatcher.Impl)
    (h : m.cpio.contents InitRc ≠ []) :
    split (is_any_of nl)
        ((JflteGoogleEditionRamdiskPatcher.geChargerModeMount re m).2.cpio.contents InitRc) =
      geChargerModeMountLoop re [] (split (is_any_of nl) (m.cpio.contents InitRc))
        ++ serviceStanza := by
  rw [geChargerModeMount_contents re m h]
  apply split_join
  · simp [serviceStanza]
  · intro l hl
    rcases List.mem_append.1 hl with h1 | h1
    · exact not_mem_geChargerModeMountLoop re [] _ (not_mem_of_mem_split _) l h1
    · exact not_mem_serviceStanza l h1

/-! ## Charger-mode injection -/

/-- C1 (counterexample): on the init script `on charger`, a mount of `/system`, then
unrelated lines, the mount line matches `mount.*/system` and the line before it matches
`on\s+charger`, yet the output nowhere holds the start line, the wait line and the mount
line in a row: the mount line is overwritten by the wait line. -/
theorem C1_mount_line_not_kept :
    exampleCpio.contents InitRc ≠ [] ∧
    split (is_any_of nl) (exampleCpio.contents InitRc) =
      [] ++ exampleChargerLine :: exampleMountLine :: [exampleOtherLine, []] ∧
    refSearch exampleMountLine mountSystemRegex = true ∧
    refSearch exampleChargerLine onChargerRegex = true ∧
    split (is_any_of nl) ((JflteGoogleEditionRamdiskPatcher.geChargerModeMount refSearch
        (JflteGoogleEditionRamdiskPatcher.new exampleCpio)).2.cpio.contents InitRc) =
      [exampleChargerLine, startLine, waitLine, exampleOtherLine, []] ++ serviceStanza ∧
    ¬ ∃ A B, split (is_any_of nl) ((JflteGoogleEditionRamdiskPatcher.geChargerModeMount
        refSearch (JflteGoogleEditionRamdiskPatcher.new exampleCpio)).2.cpio.contents InitRc) =
      A ++ startLine :: waitLine :: exampleMountLine :: B := by
  have hout : split (is_any_of nl) ((JflteGoogleEditionRamdiskPatcher.geChargerModeMount
      refSearch (JflteGoogleEditionRamdiskPatcher.new exampleCpio)).2.cpio.contents InitRc) =
      [exampleChargerLine, startLine, waitLine, exampleOtherLine, []] ++ serviceStanza := by
    decide
  refine ⟨by decide, by decide, by decide, by decide, hout, ?_⟩
  rintro ⟨A, B, hAB⟩
  have hmem : exampleMountLine ∈
      [exampleChargerLine, startLine, waitLine, exampleOtherLine, []] ++ serviceStanza := by
    rw [← hout, hAB]
    simp
  revert hmem
  decide

/-- C1 (amended): for every non-empty `init.rc` in which a line `L` matches
`mount.*/system` and the line `P` before it matches `on\s+charger`, the patch succeeds and
the output holds the start line directly followed by the wait line; when `P` is not itself
a mount-of-`/system` line, the two lines stand directly after `P` in the place of `L`,
which is overwritten and not kept. -/
theorem C1_geChargerModeMount_replaces_mount_line (re : RegexSearch)
    (m : JflteBaseRamdiskPatcher.Impl) (pre post : List (List Char)) (P L : List Char)
    (hne : m.cpio.contents InitRc ≠ [])
    (hsplit : split (is_any_of nl) (m.cpio.contents InitRc) = pre ++ P :: L :: post)
    (hL : re L mountSystemRegex = true) (hP : re P onChargerRegex = true) :
    (JflteGoogleEditionRamdiskPatcher.geChargerModeMount re m).1 = true ∧
    (∃ A B, split (is_any_of nl)
        ((JflteGoogleEditionRamdiskPatcher.geChargerModeMount re m).2.cpio.contents InitRc) =
      A ++ startLine :: waitLine :: B) ∧
    (re P mountSystemRegex = false →
      split (is_any_of nl)
        ((JflteGoogleEditionRamdiskPatcher.geChargerModeMount re m).2.cpio.contents InitRc) =
      geChargerModeMountLoop re [] pre ++
        P :: startLine :: waitLine :: geChargerModeMountLoop re waitLine post ++
        serviceStanza) := by
  refine ⟨by rw [geChargerModeMount_of_ne_nil re m hne], ?_, ?_⟩
  · obtain ⟨A, B, hAB⟩ := startLine_waitLine_infix re pre P L post hL hP []
    refine ⟨A, B ++ serviceStanza, ?_⟩
    simp [geChargerModeMount_lines re m hne, hsplit, hAB]
  · intro hPm
    rw [geChargerModeMount_lines re m hne, hsplit,
      geChargerModeMountLoop_append_keep re pre P hPm,
      geChargerModeMountLoop_cons_pos re P L post hL hP]

/-- C1 (witness): the amended statement at `exampleCpio`, where the two lines stand after
`on charger` in the place of the mount line. -/
theorem C1_geChargerModeMount_replaces_mount_line_witness :
    split (is_any_of nl) ((JflteGoogleEditionRamdiskPatcher.geChargerModeMount refSearch
        (JflteGoogleEditionRamdiskPatcher.new exampleCpio)).2.cpio.contents InitRc) =
      [] ++ exampleChargerLine :: startLine :: waitLine :: [exampleOtherLine, []] ++
        serviceStanza :=
  (C1_geChargerModeMount_replaces_mount_line refSearch
    (JflteGoogleEditionRamdiskPatcher.new exampleCpio) [] [exampleOtherLine, []]
    exampleChargerLine exampleMountLine (by decide) (by decide) (by decide)
    (by decide)).2.2 (by decide)

/-- C2: when the archive has no `init.rc`, `geChargerModeMount` returns failure, records
the entry-not-found error `CpioFileNotExistError` for the path `init.rc`, and leaves the
archive (and the rest of the state) as it was. -/
theorem C2_geChargerModeMount_missing_init_rc (re : RegexSearch)
    (m : JflteBaseRamdiskPatcher.Impl) (h : m.cpio.«exists» InitRc = false) :
    (JflteGoogleEditionRamdiskPatcher.geChargerModeMount re m).1 = false ∧
    JflteBaseRamdiskPatcher.error
        (JflteGoogleEditionRamdiskPatcher.geChargerModeMount re m).2 =
      { errorCode := ErrorCode.CpioFileNotExistError, filename := "init.rc".toList } ∧
    (JflteGoogleEditionRamdiskPatcher.geChargerModeMount re m).2.cpio = m.cpio ∧
    (JflteGoogleEditionRamdiskPatcher.geChargerModeMount re m).2.getwVersion =
      m.getwVersion := by
  have hc := CpioFile.contents_of_not_exists m.cpio InitRc h
  rw [geChargerModeMount_of_nil re m hc]
  exact ⟨rfl, rfl, rfl, rfl⟩

/-- C2 (witness): an archive that holds only `default.prop`. -/
theorem C2_geChargerModeMount_missing_init_rc_witness :
    exampleCpioNoInitRc.«exists» InitRc = false ∧
    (JflteGoogleEditionRamdiskPatcher.geChargerModeMount refSearch
      (JflteGoogleEditionRamdiskPatcher.new exampleCpioNoInitRc)).2.cpio =
        exampleCpioNoInitRc :=
  ⟨by decide, (C2_geChargerModeMount_missing_init_rc refSearch
    (JflteGoogleEditionRamdiskPatcher.new exampleCpioNoInitRc) (by decide)).2.2.1⟩

/-- C3: for every non-empty `init.rc`, `geChargerModeMount` succeeds and the output ends
with the four-line service stanza: they are its last four lines, the bytes end with the
stanza text with no newline after it, and when no input line equals the service
declaration line that line occurs exactly once in the output. -/
theorem C3_geChargerModeMount_appends_stanza (re : RegexSearch)
    (m : JflteBaseRamdiskPatcher.Impl) (hne : m.cpio.contents InitRc ≠ []) :
    (JflteGoogleEditionRamdiskPatcher.geChargerModeMount re m).1 = true ∧
    (∃ body, split (is_any_of nl)
        ((JflteGoogleEditionRamdiskPatcher.geChargerModeMount re m).2.cpio.contents InitRc) =
      body ++ ["service mbtool-charger /mbtool mount_fstab /fstab.jgedlte".toList,
        "    class core".toList, "    critical".toList, "    oneshot".toList]) ∧
    (∃ front,
      (JflteGoogleEditionRamdiskPatcher.geChargerModeMount re m).2.cpio.contents InitRc =
        front ++ ("\nservice mbtool-charger /mbtool mount_fstab /fstab.jgedlte\n" ++
          "    class core\n    critical\n    oneshot").toList) ∧
    ((∀ l ∈ split (is_any_of nl) (m.cpio.contents InitRc), l ≠ serviceLine) →
      (split (is_any_of nl)
        ((JflteGoogleEditionRamdiskPatcher.geChargerModeMount re m).2.cpio.contents
          InitRc)).count serviceLine = 1) := by
  refine ⟨by rw [geChargerModeMount_of_ne_nil re m hne], ⟨_, geChargerModeMount_lines re m hne⟩,
    ?_, ?_⟩
  · refine ⟨join nl (geChargerModeMountLoop re [] (split (is_any_of nl)
      (m.cpio.contents InitRc))), ?_⟩
    rw [geChargerModeMount_contents re m hne,
      join_append nl _ _ (geChargerModeMountLoop_ne_nil re [] _ (split_ne_nil _ _))
        (by simp [serviceStanza]), List.append_assoc]
    rfl
  · intro hno
    rw [geChargerModeMount_lines re m hne, List.count_append]
    have h0 : (geChargerModeMountLoop re [] (split (is_any_of nl)
        (m.cpio.contents InitRc))).count serviceLine = 0 := by
      apply List.count_eq_zero_of_not_mem
      intro hmem
      rcases mem_geChargerModeMountLoop re _ [] _ hmem with h | h | h
      · exact hno _ h rfl
      · revert h; decide
      · revert h; decide
    rw [h0]
    decide

/-- C3 (witness): `exampleCpio`, whose `init.rc` is not empty and has no service line. -/
theorem C3_geChargerModeMount_appends_stanza_witness :
    exampleCpio.contents InitRc ≠ [] ∧
    (split (is_any_of nl) ((JflteGoogleEditionRamdiskPatcher.geChargerModeMount refSearch
      (JflteGoogleEditionRamdiskPatcher.new exampleCpio)).2.cpio.contents InitRc)).count
        serviceLine = 1 :=
  ⟨by decide, (C3_geChargerModeMount_appends_stanza refSearch
    (JflteGoogleEditionRamdiskPatcher.new exampleCpio) (by decide)).2.2.2 (by decide)⟩

/-- C4: when no line of a non-empty `init.rc` matches `mount.*/system` directly after a
line matching `on\s+charger` (the regex library finding no `on\s+charger` in the empty
string that stands before the first line), `geChargerModeMount` succeeds and the new
content is the old content, then a newline, then the four stanza lines joined by
newlines; splitting on the newline and joining again loses no byte of any content. -/
theorem C4_geChargerModeMount_no_match (re : RegexSearch)
    (m : JflteBaseRamdiskPatcher.Impl) (hne : m.cpio.contents InitRc ≠ [])
    (hempty : re [] onChargerRegex = false)
    (hno : ∀ pre a b post,
      split (is_any_of nl) (m.cpio.contents InitRc) = pre ++ a :: b :: post →
      ¬ (re b mountSystemRegex = true ∧ re a onChargerRegex = true)) :
    (JflteGoogleEditionRamdiskPatcher.geChargerModeMount re m).1 = true ∧
    (JflteGoogleEditionRamdiskPatcher.geChargerModeMount re m).2.cpio.contents InitRc =
      m.cpio.contents InitRc ++ "\n".toList ++
        ("service mbtool-charger /mbtool mount_fstab /fstab.jgedlte\n" ++
          "    class core\n    critical\n    oneshot").toList ∧
    (∀ c : List Char, join nl (split (is_any_of nl) c) = c) := by
  refine ⟨by rw [geChargerModeMount_of_ne_nil re m hne], ?_, join_split⟩
  rw [geChargerModeMount_contents re m hne,
    geChargerModeMountLoop_eq_self re _ [] (by simp [hempty]) hno,
    join_append nl _ _ (split_ne_nil _ _) (by simp [serviceStanza]), join_split]
  rfl

/-- C4 (witness): an `init.rc` whose mount line follows `on boot`. -/
theorem C4_geChargerModeMount_no_match_witness :
    (JflteGoogleEditionRamdiskPatcher.geChargerModeMount refSearch
        (JflteGoogleEditionRamdiskPatcher.new
          [(InitRc, exampleInitRcNoCharger)])).2.cpio.contents InitRc =
      exampleInitRcNoCharger ++ "\n".toList ++
        ("service mbtool-charger /mbtool mount_fstab /fstab.jgedlte\n" ++
          "    class core\n    critical\n    oneshot").toList :=
  (C4_geChargerModeMount_no_match refSearch
    (JflteGoogleEditionRamdiskPatcher.new [(InitRc, exampleInitRcNoCharger)])
    (by decide) (by decide)
    (by
      intro pre a b post h
      have hs : split (is_any_of nl) ((JflteGoogleEditionRamdiskPatcher.new
          [(InitRc, exampleInitRcNoCharger)]).cpio.contents InitRc) =
          ["on boot\r".toList, "    mount ext4 /dev/x /system ro".toList, []] := by decide
      rw [hs] at h
      have ha : refSearch a onChargerRegex = false := by
        match pre, h with
        | [], h =>
          simp only [List.nil_append, List.cons.injEq] at h
          rw [← h.1]; decide
        | [_], h =>
          simp only [List.cons_append, List.nil_append, List.cons.injEq] at h
          rw [← h.2.1]; decide
        | _ :: _ :: pre2, h =>
          simp only [List.cons_append, List.cons.injEq] at h
          have hlen := congrArg List.length h.2.2
          simp only [List.length_cons, List.length_nil, List.length_append] at hlen
          exact absurd hlen (by omega)
      simp [ha])).2.1

/-- Lines that are no mount lines pass the scan unchanged, whatever came before. -/
theorem geChargerModeMountLoop_of_no_mount (re : RegexSearch) (ys : List (List Char))
    (h : ∀ l ∈ ys, re l mountSystemRegex = false) :
    ∀ (prev : List Char), geChargerModeMountLoop re prev ys = ys := by
  induction ys with
  | nil => intro _; rfl
  | cons y rest ih =>
    intro prev
    rw [geChargerModeMountLoop_cons_neg re prev y rest
      (by simp [h y (List.mem_cons_self _ _)]),
      ih (fun l hl => h l (List.mem_cons_of_mem _ hl))]

/-- A second scan over the result of a scan, followed by lines that are no mount lines,
changes nothing, provided the two written lines are no mount lines. -/
theorem geChargerModeMountLoop_loop_append (re : RegexSearch)
    (hs : re startLine mountSystemRegex = false) (hw : re waitLine mountSystemRegex = false)
    (ys : List (List Char)) (hys : ∀ l ∈ ys, re l mountSystemRegex = false)
    (ls : List (List Char)) :
    ∀ (prev : List Char),
      geChargerModeMountLoop re prev (geChargerModeMountLoop re prev ls ++ ys) =
        geChargerModeMountLoop re prev ls ++ ys := by
  induction ls with
  | nil =>
    intro prev
    exact geChargerModeMountLoop_of_no_mount re ys hys prev
  | cons l rest ih =>
    intro prev
    by_cases h : re l mountSystemRegex = true ∧ re prev onChargerRegex = true
    · rw [geChargerModeMountLoop_cons_pos re prev l rest h.1 h.2, List.cons_append,
        List.cons_append,
        geChargerModeMountLoop_cons_neg re prev startLine _ (by simp [hs]),
        geChargerModeMountLoop_cons_neg re startLine waitLine _ (by simp [hw]), ih]
    · rw [geChargerModeMountLoop_cons_neg re prev l rest h, List.cons_append,
        geChargerModeMountLoop_cons_neg re prev l _ h, ih]

/-- C5: charger-mode injection is not idempotent. For every non-empty `init.rc`, with a
regex library that finds no `mount.*/system` in the lines this code writes, both
applications succeed, the second scan injects nothing (it leaves the lines of the first
result as they are), the second result is the first result followed by a newline and the
four stanza lines again, and so it ends with the stanza twice in a row. -/
theorem C5_geChargerModeMount_twice (re : RegexSearch) (m : JflteBaseRamdiskPatcher.Impl)
    (hne : m.cpio.contents InitRc ≠ [])
    (hs : re startLine mountSystemRegex = false)
    (hw : re waitLine mountSystemRegex = false)
    (hst : ∀ l ∈ serviceStanza, re l mountSystemRegex = false) :
    (JflteGoogleEditionRamdiskPatcher.geChargerModeMount re m).1 = true ∧
    (JflteGoogleEditionRamdiskPatcher.geChargerModeMount re
      (JflteGoogleEditionRamdiskPatcher.geChargerModeMount re m).2).1 = true ∧
    geChargerModeMountLoop re [] (split (is_any_of nl)
        ((JflteGoogleEditionRamdiskPatcher.geChargerModeMount re m).2.cpio.contents InitRc)) =
      split (is_any_of nl)
        ((JflteGoogleEditionRamdiskPatcher.geChargerModeMount re m).2.cpio.contents InitRc) ∧
    (JflteGoogleEditionRamdiskPatcher.geChargerModeMount re
        (JflteGoogleEditionRamdiskPatcher.geChargerModeMount re m).2).2.cpio.contents InitRc =
      (JflteGoogleEditionRamdiskPatcher.geChargerModeMount re m).2.cpio.contents InitRc ++
        "\n".toList ++
        ("service mbtool-charger /mbtool mount_fstab /fstab.jgedlte\n" ++
          "    class core\n    critical\n    oneshot").toList ∧
    (∃ body, split (is_any_of nl) ((JflteGoogleEditionRamdiskPatcher.geChargerModeMount re
        (JflteGoogleEditionRamdiskPatcher.geChargerModeMount re m).2).2.cpio.contents
          InitRc) = body ++ serviceStanza ++ serviceStanza) := by
  have hlines := geChargerModeMount_lines re m hne
  have hloop : geChargerModeMountLoop re [] (split (is_any_of nl)
        ((JflteGoogleEditionRamdiskPatcher.geChargerModeMount re m).2.cpio.contents InitRc)) =
      split (is_any_of nl)
        ((JflteGoogleEditionRamdiskPatcher.geChargerModeMount re m).2.cpio.contents
          InitRc) := by
    rw [hlines]
    exact geChargerModeMountLoop_loop_append re hs hw serviceStanza hst _ []
  have hne1 : (JflteGoogleEditionRamdiskPatcher.geChargerModeMount re m).2.cpio.contents
      InitRc ≠ [] := by
    intro h0
    rw [h0] at hlines
    have hlen := congrArg List.length hlines
    simp only [split, serviceStanza, List.length_cons, List.length_nil,
      List.length_append] at hlen
    omega
  refine ⟨by rw [geChargerModeMount_of_ne_nil re m hne],
    by rw [geChargerModeMount_of_ne_nil re _ hne1], hloop, ?_, ?_⟩
  · rw [geChargerModeMount_contents re _ hne1, hloop,
      join_append nl _ _ (split_ne_nil _ _) (by simp [serviceStanza]), join_split]
    rfl
  · refine ⟨geChargerModeMountLoop re [] (split (is_any_of nl) (m.cpio.contents InitRc)), ?_⟩
    rw [geChargerModeMount_lines re _ hne1, hloop, hlines]

/-- C5 (witness): two applications on `exampleCpio` with the reference engine. -/
theorem C5_geChargerModeMount_twice_witness :
    split (is_any_of nl) ((JflteGoogleEditionRamdiskPatcher.geChargerModeMount refSearch
        (JflteGoogleEditionRamdiskPatcher.geChargerModeMount refSearch
          (JflteGoogleEditionRamdiskPatcher.new exampleCpio)).2).2.cpio.contents InitRc) =
      [exampleChargerLine, startLine, waitLine, exampleOtherLine, []] ++ serviceStanza ++
        serviceStanza := by
  obtain ⟨_, _, _, h, _⟩ := C5_geChargerModeMount_twice refSearch
    (JflteGoogleEditionRamdiskPatcher.new exampleCpio) (by decide) (by decide) (by decide)
    (by decide)
  rw [h]
  decide

/-! ## Core Fixups -/

theorem hasDataMediaContextLoop_eq (ls : List (List Char)) :
    ∀ (b : Bool), hasDataMediaContextLoop b ls =
      (b || ls.any (fun l => starts_with l "/data/media".toList)) := by
  induction ls with
  | nil => intro b; simp [hasDataMediaContextLoop]
  | cons l rest ih =>
    intro b
    unfold hasDataMediaContextLoop
    by_cases h : starts_with l "/data/media".toList = true
    · rw [if_pos h, ih, List.any_cons, h]
      simp
    · rw [if_neg h, ih, List.any_cons, Bool.eq_false_iff.2 h]
      simp

/-- The result of `fixDataMediaContext` when `file_contexts` does not exist. -/
theorem fixDataMediaContext_of_not_exists (m : CoreRamdiskPatcher.Impl)
    (h : m.cpio.«exists» FileContexts = false) :
    CoreRamdiskPatcher.fixDataMediaContext m = (true, m) := by
  unfold CoreRamdiskPatcher.fixDataMediaContext
  simp [h]

/-- The result of `fixDataMediaContext` when `file_contexts` exists and no line starts
with `/data/media`. -/
theorem fixDataMediaContext_of_no_line (m : CoreRamdiskPatcher.Impl)
    (h : m.cpio.«exists» FileContexts = true)
    (hno : ∀ l ∈ split (is_any_of nl) (m.cpio.contents FileContexts),
      starts_with l "/data/media".toList = false) :
    CoreRamdiskPatcher.fixDataMediaContext m =
      (true, { m with cpio := (m.cpio.setContents FileContexts
        (join nl (split (is_any_of nl) (m.cpio.contents FileContexts) ++
          [DataMediaContext]))) }) := by
  have hl : hasDataMediaContextLoop false
      (split (is_any_of nl) (m.cpio.contents FileContexts)) = false := by
    rw [hasDataMediaContextLoop_eq]
    simpa using hno
  unfold CoreRamdiskPatcher.fixDataMediaContext
  simp [h, hl]

/-- The result of `fixDataMediaContext` when `file_contexts` exists and some line starts
with `/data/media`. -/
theorem fixDataMediaContext_of_line (m : CoreRamdiskPatcher.Impl)
    (h : m.cpio.«exists» FileContexts = true)
    (hsome : ∃ l ∈ split (is_any_of nl) (m.cpio.contents FileContexts),
      starts_with l "/data/media".toList = true) :
    CoreRamdiskPatcher.fixDataMediaContext m = (true, m) := by
  have hl : hasDataMediaContextLoop false
      (split (is_any_of nl) (m.cpio.contents FileContexts)) = true := by
    rw [hasDataMediaContextLoop_eq]
    simpa using hsome
  unfold CoreRamdiskPatcher.fixDataMediaContext
  simp [h, hl, join_split, CpioFile.setContents_contents]

theorem fixDataMediaContext_fst (m : CoreRamdiskPatcher.Impl) :
    (CoreRamdiskPatcher.fixDataMediaContext m).1 = true := by
  unfold CoreRamdiskPatcher.fixDataMediaContext
  split <;> rfl

theorem core_patchRamdisk_eq (m : CoreRamdiskPatcher.Impl) :
    CoreRamdiskPatcher.patchRamdisk m =
      (true, (CoreRamdiskPatcher.fixDataMediaContext m).2) := by
  unfold CoreRamdiskPatcher.patchRamdisk
  simp [fixDataMediaContext_fst]

/-- C6: Core Fixups never fails. `CoreRamdiskPatcher::patchRamdisk` and
`fixDataMediaContext` return success for every state, and when `file_contexts` does not
exist the call leaves the whole state, archive included, as it was, so `file_contexts`
still does not exist afterwards. -/
theorem C6_core_fixups_never_fails (m : CoreRamdiskPatcher.Impl) :
    (CoreRamdiskPatcher.patchRamdisk m).1 = true ∧
    (CoreRamdiskPatcher.fixDataMediaContext m).1 = true ∧
    (m.cpio.«exists» FileContexts = false →
      CoreRamdiskPatcher.patchRamdisk m = (true, m) ∧
      (CoreRamdiskPatcher.patchRamdisk m).2.cpio = m.cpio ∧
      (CoreRamdiskPatcher.patchRamdisk m).2.cpio.«exists» FileContexts = false) := by
  refine ⟨by rw [core_patchRamdisk_eq], fixDataMediaContext_fst m, ?_⟩
  intro h
  rw [core_patchRamdisk_eq, fixDataMediaContext_of_not_exists m h]
  exact ⟨rfl, rfl, h⟩

/-- C6 (witness): `exampleCpio`, which has no `file_contexts`. -/
theorem C6_core_fixups_never_fails_witness :
    exampleCpio.«exists» FileContexts = false ∧
    CoreRamdiskPatcher.patchRamdisk (CoreRamdiskPatcher.new exampleCpio) =
      (true, CoreRamdiskPatcher.new exampleCpio) :=
  ⟨by decide, ((C6_core_fixups_never_fails (CoreRamdiskPatcher.new exampleCpio)).2.2
    (by decide)).1⟩

/-- C7: when `file_contexts` exists and none of its lines begins with `/data/media`,
`fixDataMediaContext` succeeds and appends exactly one line: the new content is the old
content, then a newline, then `/data/media(/.*)? u:object_r:media_rw_data_file:s0`; the
lines of the output are the original lines in order followed by that line, one line more
than before. -/
theorem C7_fixDataMediaContext_appends (m : CoreRamdiskPatcher.Impl)
    (h : m.cpio.«exists» FileContexts = true)
    (hno : ∀ l ∈ split (is_any_of nl) (m.cpio.contents FileContexts),
      starts_with l "/data/media".toList = false) :
    (CoreRamdiskPatcher.fixDataMediaContext m).1 = true ∧
    (CoreRamdiskPatcher.fixDataMediaContext m).2.cpio.contents FileContexts =
      m.cpio.contents FileContexts ++ "\n".toList ++
        "/data/media(/.*)? u:object_r:media_rw_data_file:s0".toList ∧
    split (is_any_of nl)
        ((CoreRamdiskPatcher.fixDataMediaContext m).2.cpio.contents FileContexts) =
      split (is_any_of nl) (m.cpio.contents FileContexts) ++
        ["/data/media(/.*)? u:object_r:media_rw_data_file:s0".toList] ∧
    (split (is_any_of nl)
        ((CoreRamdiskPatcher.fixDataMediaContext m).2.cpio.contents FileContexts)).length =
      (split (is_any_of nl) (m.cpio.contents FileContexts)).length + 1 := by
  have hc : (CoreRamdiskPatcher.fixDataMediaContext m).2.cpio.contents FileContexts =
      join nl (split (is_any_of nl) (m.cpio.contents FileContexts) ++
        [DataMediaContext]) := by
    rw [fixDataMediaContext_of_no_line m h hno]
    exact CpioFile.contents_setContents _ _ _ h
  have hl : split (is_any_of nl)
      ((CoreRamdiskPatcher.fixDataMediaContext m).2.cpio.contents FileContexts) =
      split (is_any_of nl) (m.cpio.contents FileContexts) ++ [DataMediaContext] := by
    rw [hc]
    apply split_join
    · simp
    · intro l hl
      rcases List.mem_append.1 hl with h1 | h1
      · exact not_mem_of_mem_split _ l h1
      · rw [List.mem_singleton.1 h1]
        decide
  refine ⟨fixDataMediaContext_fst m, ?_, hl, ?_⟩
  · rw [hc, join_append nl _ _ (split_ne_nil _ _) (by simp), join_split]
    rfl
  · rw [hl]
    simp

/-- C7 (witness): a context table with one line, for `/data`. -/
theorem C7_fixDataMediaContext_appends_witness :
    (CoreRamdiskPatcher.fixDataMediaContext (CoreRamdiskPatcher.new
        [(FileContexts, exampleFileContexts)])).2.cpio.contents FileContexts =
      exampleFileContexts ++ "\n".toList ++
        "/data/media(/.*)? u:object_r:media_rw_data_file:s0".toList :=
  (C7_fixDataMediaContext_appends
    (CoreRamdiskPatcher.new [(FileContexts, exampleFileContexts)]) (by decide)
    (by decide)).2.1

/-- C8: when `file_contexts` exists and one of its lines begins with `/data/media`,
`fixDataMediaContext` succeeds and leaves the content of the entry, and with it the whole
state, unchanged byte for byte; the split on newlines followed by the join with newlines
is the identity on every byte sequence. -/
theorem C8_fixDataMediaContext_unchanged (m : CoreRamdiskPatcher.Impl)
    (h : m.cpio.«exists» FileContexts = true)
    (hsome : ∃ l ∈ split (is_any_of nl) (m.cpio.contents FileContexts),
      starts_with l "/data/media".toList = true) :
    (CoreRamdiskPatcher.fixDataMediaContext m).1 = true ∧
    (CoreRamdiskPatcher.fixDataMediaContext m).2.cpio.contents FileContexts =
      m.cpio.contents FileContexts ∧
    (CoreRamdiskPatcher.fixDataMediaContext m).2 = m ∧
    (∀ c : List Char, join nl (split (is_any_of nl) c) = c) := by
  rw [fixDataMediaContext_of_line m h hsome]
  exact ⟨rfl, rfl, rfl, join_split⟩

/-- C8 (witness): a context table with a `/data/media` line, an empty line and a final
newline. -/
theorem C8_fixDataMediaContext_unchanged_witness :
    (CoreRamdiskPatcher.fixDataMediaContext (CoreRamdiskPatcher.new
        [(FileContexts, exampleFileContextsFixed)])).2 =
      CoreRamdiskPatcher.new [(FileContexts, exampleFileContextsFixed)] :=
  (C8_fixDataMediaContext_unchanged
    (CoreRamdiskPatcher.new [(FileContexts, exampleFileContextsFixed)]) (by decide)
    (by decide)).2.2.1

/-! ## The pipelines -/

/-- When a step is the first to fail, the rule of the spec reports failure with that
step's error on the archive the earlier steps have produced. -/
theorem runSteps_first_failure (steps : List Step) :
    ∀ (m : JflteBaseRamdiskPatcher.Impl) (k : Nat) (step : Step) (cpio : CpioFile)
      (e : PatcherError), steps[k]? = some step →
      applySteps (steps.take k) m.cpio = Except.ok cpio → step cpio = Except.error e →
      runSteps steps m = (false, { m with cpio := cpio, error := e }) := by
  induction steps with
  | nil => intro m k step cpio e hk; simp at hk
  | cons s rest ih =>
    intro m k step cpio e hk hpre hfail
    cases k with
    | zero =>
      simp only [List.getElem?_cons_zero, Option.some.injEq] at hk
      subst hk
      simp only [List.take_zero, applySteps, Except.ok.injEq] at hpre
      subst hpre
      simp only [runSteps, hfail]
    | succ k =>
      simp only [List.getElem?_cons_succ] at hk
      simp only [List.take_succ_cons, applySteps] at hpre
      cases hs : s m.cpio with
      | error e2 => rw [hs] at hpre; cases hpre
      | ok cpio2 =>
        rw [hs] at hpre
        simp only [runSteps, hs]
        exact ih { m with cpio := cpio2 } k step cpio e hk hpre hfail

/-- When every step succeeds, the rule of the spec reports success on the archive of the
sequential composition. -/
theorem runSteps_all_ok (steps : List Step) :
    ∀ (m : JflteBaseRamdiskPatcher.Impl) (cpio : CpioFile),
      applySteps steps m.cpio = Except.ok cpio →
      runSteps steps m = (true, { m with cpio := cpio }) := by
  induction steps with
  | nil =>
    intro m cpio h
    simp only [applySteps, Except.ok.injEq] at h
    subst h
    rfl
  | cons s rest ih =>
    intro m cpio h
    simp only [applySteps] at h
    cases hs : s m.cpio with
    | error e2 => rw [hs] at h; cases h
    | ok cpio2 =>
      rw [hs] at h
      simp only [runSteps, hs]
      exact ih { m with cpio := cpio2 } cpio h

theorem coreFixupsStep_eq (cpio : CpioFile) :
    coreFixupsStep cpio =
      Except.ok (CoreRamdiskPatcher.fixDataMediaContext (CoreRamdiskPatcher.new cpio)).2.cpio := by
  simp [coreFixupsStep, core_patchRamdisk_eq]

/-- The AOSP pipeline follows the rule of the spec on its list of steps. -/
theorem aosp_patchRamdisk_eq_runSteps (qcomPatcher : QcomRamdiskPatcher)
    (m : JflteBaseRamdiskPatcher.Impl) :
    JflteAOSPRamdiskPatcher.patchRamdisk qcomPatcher m = runSteps (aospSteps qcomPatcher) m := by
  unfold JflteAOSPRamdiskPatcher.patchRamdisk
  simp only [aospSteps, platformSteps, runSteps, coreFixupsStep_eq,
    core_patchRamdisk_eq, Bool.not_true, Bool.false_eq_true, if_false]

/-- The TouchWiz pipeline follows the rule of the spec on its list of steps. -/
theorem touchWiz_patchRamdisk_eq_runSteps
    (qcomPatcher : QcomRamdiskPatcher) (galaxyPatcher : GalaxyRamdiskPatcher)
    (m : JflteBaseRamdiskPatcher.Impl) :
    JflteTouchWizRamdiskPatcher.patchRamdisk qcomPatcher galaxyPatcher m =
      runSteps (touchWizSteps qcomPatcher galaxyPatcher m.getwVersion) m := by
  unfold JflteTouchWizRamdiskPatcher.patchRamdisk
  simp only [touchWizSteps, platformSteps, runSteps, coreFixupsStep_eq,
    core_patchRamdisk_eq, Bool.not_true, Bool.false_eq_true, if_false,
    List.cons_append, List.nil_append]

/-- The GoogleEdition pipeline follows the rule of the spec on its list of steps. -/
theorem googleEdition_patchRamdisk_eq_runSteps (re : RegexSearch)
    (qcomPatcher : QcomRamdiskPatcher) (galaxyPatcher : GalaxyRamdiskPatcher)
    (m : JflteBaseRamdiskPatcher.Impl) :
    JflteGoogleEditionRamdiskPatcher.patchRamdisk re qcomPatcher galaxyPatcher m =
      runSteps (googleEditionSteps re qcomPatcher galaxyPatcher m.getwVersion) m := by
  unfold JflteGoogleEditionRamdiskPatcher.patchRamdisk
  simp only [googleEditionSteps, platformSteps, runSteps, coreFixupsStep_eq,
    core_patchRamdisk_eq, Bool.not_true, Bool.false_eq_true, if_false,
    List.cons_append, List.nil_append, chargerModeStep]
  by_cases hc : (CoreRamdiskPatcher.fixDataMediaContext
      (CoreRamdiskPatcher.new m.cpio)).2.cpio.contents InitRc = []
  · rw [geChargerModeMount_of_nil re _ hc, geChargerModeMount_of_nil re
      (JflteBaseRamdiskPatcher.new _) hc]
    rfl
  · rw [geChargerModeMount_of_ne_nil re _ hc, geChargerModeMount_of_ne_nil re
      (JflteBaseRamdiskPatcher.new _) hc]
    rfl


/-- C9: first failure wins in each of the three pipelines, every step being a function
from the archive to either an error or the updated archive. If the step at position `k`
of the pipeline's list fails with error `e` on the archive `cpio` that the steps before
it have produced from the initial archive, then `patchRamdisk` returns failure, `error()`
is `e`, and the archive is `cpio`: the effects of the earlier steps are kept and no later
step has touched it. -/
theorem C9_first_failure_wins (re : RegexSearch) (qcomPatcher : QcomRamdiskPatcher)
    (galaxyPatcher : GalaxyRamdiskPatcher) (m : JflteBaseRamdiskPatcher.Impl) (k : Nat)
    (step : Step) (cpio : CpioFile) (e : PatcherError) :
    ((aospSteps qcomPatcher)[k]? = some step →
      applySteps ((aospSteps qcomPatcher).take k) m.cpio = Except.ok cpio →
      step cpio = Except.error e →
      (JflteAOSPRamdiskPatcher.patchRamdisk qcomPatcher m).1 = false ∧
      JflteBaseRamdiskPatcher.error
        (JflteAOSPRamdiskPatcher.patchRamdisk qcomPatcher m).2 = e ∧
      (JflteAOSPRamdiskPatcher.patchRamdisk qcomPatcher m).2.cpio = cpio) ∧
    ((googleEditionSteps re qcomPatcher galaxyPatcher m.getwVersion)[k]? = some step →
      applySteps ((googleEditionSteps re qcomPatcher galaxyPatcher m.getwVersion).take k)
        m.cpio = Except.ok cpio →
      step cpio = Except.error e →
      (JflteGoogleEditionRamdiskPatcher.patchRamdisk re qcomPatcher galaxyPatcher m).1 =
        false ∧
      JflteBaseRamdiskPatcher.error
        (JflteGoogleEditionRamdiskPatcher.patchRamdisk re qcomPatcher galaxyPatcher m).2 =
          e ∧
      (JflteGoogleEditionRamdiskPatcher.patchRamdisk re qcomPatcher galaxyPatcher m).2.cpio =
        cpio) ∧
    ((touchWizSteps qcomPatcher galaxyPatcher m.getwVersion)[k]? = some step →
      applySteps ((touchWizSteps qcomPatcher galaxyPatcher m.getwVersion).take k) m.cpio =
        Except.ok cpio →
      step cpio = Except.error e →
      (JflteTouchWizRamdiskPatcher.patchRamdisk qcomPatcher galaxyPatcher m).1 = false ∧
      JflteBaseRamdiskPatcher.error
        (JflteTouchWizRamdiskPatcher.patchRamdisk qcomPatcher galaxyPatcher m).2 = e ∧
      (JflteTouchWizRamdiskPatcher.patchRamdisk qcomPatcher galaxyPatcher m).2.cpio =
        cpio) := by
  refine ⟨?_, ?_, ?_⟩
  · intro hk hpre hfail
    rw [aosp_patchRamdisk_eq_runSteps,
      runSteps_first_failure _ m k step cpio e hk hpre hfail]
    exact ⟨rfl, rfl, rfl⟩
  · intro hk hpre hfail
    rw [googleEdition_patchRamdisk_eq_runSteps,
      runSteps_first_failure _ m k step cpio e hk hpre hfail]
    exact ⟨rfl, rfl, rfl⟩
  · intro hk hpre hfail
    rw [touchWiz_patchRamdisk_eq_runSteps,
      runSteps_first_failure _ m k step cpio e hk hpre hfail]
    exact ⟨rfl, rfl, rfl⟩

/-- C9 (witness): the GoogleEdition pipeline on `exampleCpio`, which has no
`init.target.rc`: the fourth step, `stripManualCacheMounts`, is the first to fail, and
the archive keeps the charger-mode injection. -/
theorem C9_first_failure_wins_witness :
    (JflteGoogleEditionRamdiskPatcher.patchRamdisk refSearch exampleQcomPatcher
      exampleGalaxyPatcher (JflteGoogleEditionRamdiskPatcher.new exampleCpio)).1 = false ∧
    JflteBaseRamdiskPatcher.error
      (JflteGoogleEditionRamdiskPatcher.patchRamdisk refSearch exampleQcomPatcher
        exampleGalaxyPatcher (JflteGoogleEditionRamdiskPatcher.new exampleCpio)).2 =
      { errorCode := ErrorCode.CpioFileNotExistError, filename := "init.target.rc".toList } ∧
    (JflteGoogleEditionRamdiskPatcher.patchRamdisk refSearch exampleQcomPatcher
      exampleGalaxyPatcher (JflteGoogleEditionRamdiskPatcher.new exampleCpio)).2.cpio =
      (JflteGoogleEditionRamdiskPatcher.geChargerModeMount refSearch
        (JflteGoogleEditionRamdiskPatcher.new exampleCpio)).2.cpio :=
  (C9_first_failure_wins refSearch exampleQcomPatcher exampleGalaxyPatcher
    (JflteGoogleEditionRamdiskPatcher.new exampleCpio) 3
    (exampleQcomPatcher.stripManualCacheMounts "init.target.rc".toList)
    (JflteGoogleEditionRamdiskPatcher.geChargerModeMount refSearch
      (JflteGoogleEditionRamdiskPatcher.new exampleCpio)).2.cpio
    { errorCode := ErrorCode.CpioFileNotExistError,
      filename := "init.target.rc".toList }).2.1 rfl rfl rfl

/-- C10: each pipeline runs its steps in the stated order. When every step of the
sequential composition succeeds and gives the archive `cpio`, `patchRamdisk` returns
success with `cpio` as the final archive and nothing else changed, for the compositions
(AOSP) Core Fixups, `addMissingCacheInFstab` with the empty list,
`stripManualCacheMounts("init.target.rc")`, `useGeneratedFstab("init.target.rc")`;
(GoogleEdition) Core Fixups, charger-mode injection, the three platform calls, the
vendor-skin step; (TouchWiz) Core Fixups, the three platform calls, the vendor-skin
step. -/
theorem C10_pipelines_run_in_order (re : RegexSearch) (qcomPatcher : QcomRamdiskPatcher)
    (galaxyPatcher : GalaxyRamdiskPatcher) (m : JflteBaseRamdiskPatcher.Impl)
    (cpio : CpioFile) :
    (applySteps [coreFixupsStep, qcomPatcher.addMissingCacheInFstab [],
        qcomPatcher.stripManualCacheMounts "init.target.rc".toList,
        qcomPatcher.useGeneratedFstab "init.target.rc".toList] m.cpio = Except.ok cpio →
      JflteAOSPRamdiskPatcher.patchRamdisk qcomPatcher m = (true, { m with cpio := cpio })) ∧
    (applySteps [coreFixupsStep, chargerModeStep re, qcomPatcher.addMissingCacheInFstab [],
        qcomPatcher.stripManualCacheMounts "init.target.rc".toList,
        qcomPatcher.useGeneratedFstab "init.target.rc".toList,
        galaxyPatcher.getwModifyMsm8960LpmRc m.getwVersion] m.cpio = Except.ok cpio →
      JflteGoogleEditionRamdiskPatcher.patchRamdisk re qcomPatcher galaxyPatcher m =
        (true, { m with cpio := cpio })) ∧
    (applySteps [coreFixupsStep, qcomPatcher.addMissingCacheInFstab [],
        qcomPatcher.stripManualCacheMounts "init.target.rc".toList,
        qcomPatcher.useGeneratedFstab "init.target.rc".toList,
        galaxyPatcher.getwModifyMsm8960LpmRc m.getwVersion] m.cpio = Except.ok cpio →
      JflteTouchWizRamdiskPatcher.patchRamdisk qcomPatcher galaxyPatcher m =
        (true, { m with cpio := cpio })) := by
  refine ⟨?_, ?_, ?_⟩
  · intro h
    rw [aosp_patchRamdisk_eq_runSteps]
    exact runSteps_all_ok _ m cpio h
  · intro h
    rw [googleEdition_patchRamdisk_eq_runSteps]
    exact runSteps_all_ok _ m cpio h
  · intro h
    rw [touchWiz_patchRamdisk_eq_runSteps]
    exact runSteps_all_ok _ m cpio h

/-- C10 (witness): the GoogleEdition pipeline on `exampleCpioFull`, where all six steps
succeed: the context table gains its line and `init.rc` gets the injection and the
stanza. -/
theorem C10_pipelines_run_in_order_witness :
    JflteGoogleEditionRamdiskPatcher.patchRamdisk refSearch exampleQcomPatcher
        exampleGalaxyPatcher (JflteGoogleEditionRamdiskPatcher.new exampleCpioFull) =
      (true, { JflteGoogleEditionRamdiskPatcher.new exampleCpioFull with
        cpio := ((exampleCpioFull.setContents FileContexts
          (exampleFileContexts ++ nl ++ DataMediaContext)).setContents InitRc
          (join nl ([exampleChargerLine, startLine, waitLine, exampleOtherLine, []] ++
            serviceStanza))) }) :=
  (C10_pipelines_run_in_order refSearch exampleQcomPatcher exampleGalaxyPatcher
    (JflteGoogleEditionRamdiskPatcher.new exampleCpioFull) _).2.1 rfl

/-! ## What a failed run records, and the skin-variant tag -/

/-- The rule of the spec on a list of steps whose first failure is known: failure, with
the archive the failing step saw and its error, whatever the position of the step. -/
theorem runSteps_of_firstFailure (steps : List Step) :
    ∀ (m : JflteBaseRamdiskPatcher.Impl) (k : Nat) (cpio : CpioFile) (e : PatcherError),
      firstFailure steps m.cpio = some (k, cpio, e) →
      runSteps steps m = (false, { m with cpio := cpio, error := e }) := by
  induction steps with
  | nil => intro m k cpio e h; simp [firstFailure] at h
  | cons s rest ih =>
    intro m k cpio e h
    simp only [firstFailure] at h
    cases hs : s m.cpio with
    | error e2 =>
      rw [hs] at h
      simp only [Option.some.injEq, Prod.mk.injEq] at h
      obtain ⟨_, hc, he⟩ := h
      subst hc he
      simp only [runSteps, hs]
    | ok cpio2 =>
      rw [hs] at h
      dsimp only at h
      simp only [runSteps, hs]
      cases hf : firstFailure rest cpio2 with
      | none => rw [hf] at h; simp at h
      | some r =>
        obtain ⟨k2, c2, e2⟩ := r
        rw [hf] at h
        simp only [Option.map_some', Option.some.injEq, Prod.mk.injEq] at h
        obtain ⟨_, hc, he⟩ := h
        subst hc he
        exact ih { m with cpio := cpio2 } k2 c2 e2 hf

theorem runSteps_getwVersion (steps : List Step) :
    ∀ (m : JflteBaseRamdiskPatcher.Impl), (runSteps steps m).2.getwVersion = m.getwVersion := by
  induction steps with
  | nil => intro m; rfl
  | cons s rest ih =>
    intro m
    simp only [runSteps]
    cases s m.cpio with
    | error e => rfl
    | ok cpio2 => exact ih { m with cpio := cpio2 }

/-- C11 (counterexample): the AOSP pipeline on `exampleCpio`, run once with a platform
patcher failing at its first call (position 1 of the step list, Core Fixups being
position 0) and once with one failing at its second call (position 2), both with the same
error: the two runs leave the same return value and the same
recorded state, so the state does not tell which step failed. -/
theorem C11_failing_step_not_recorded :
    firstFailure (aospSteps exampleQcomFailsAtAdd) exampleCpio =
      some (1, exampleCpio, exampleError) ∧
    firstFailure (aospSteps exampleQcomFailsAtStrip) exampleCpio =
      some (2, exampleCpio, exampleError) ∧
    JflteAOSPRamdiskPatcher.patchRamdisk exampleQcomFailsAtAdd
        (JflteAOSPRamdiskPatcher.new exampleCpio) =
      JflteAOSPRamdiskPatcher.patchRamdisk exampleQcomFailsAtStrip
        (JflteAOSPRamdiskPatcher.new exampleCpio) :=
  ⟨rfl, rfl, rfl⟩

/-- C11 (amended): on failure a pipeline records the failing step's error and nothing
about the step itself. In each of the three pipelines, when the first failure of a run
from state `m` is at position `k` with error `e` on the archive `cpio`, `patchRamdisk`
returns failure with exactly the state `m` carrying `cpio` and `e`; so a second run from
`m` (with other platform and vendor-skin patchers) that fails at another position `k2`
with the same error on the same archive ends in the same state. -/
theorem C11_failure_records_error_only (re : RegexSearch)
    (qcomPatcher qcomPatcher2 : QcomRamdiskPatcher)
    (galaxyPatcher galaxyPatcher2 : GalaxyRamdiskPatcher)
    (m : JflteBaseRamdiskPatcher.Impl) (k k2 : Nat) (cpio : CpioFile) (e : PatcherError) :
    (firstFailure (aospSteps qcomPatcher) m.cpio = some (k, cpio, e) →
      JflteAOSPRamdiskPatcher.patchRamdisk qcomPatcher m =
        (false, { m with cpio := cpio, error := e }) ∧
      (firstFailure (aospSteps qcomPatcher2) m.cpio = some (k2, cpio, e) →
        JflteAOSPRamdiskPatcher.patchRamdisk qcomPatcher2 m =
          JflteAOSPRamdiskPatcher.patchRamdisk qcomPatcher m)) ∧
    (firstFailure (googleEditionSteps re qcomPatcher galaxyPatcher m.getwVersion) m.cpio =
        some (k, cpio, e) →
      JflteGoogleEditionRamdiskPatcher.patchRamdisk re qcomPatcher galaxyPatcher m =
        (false, { m with cpio := cpio, error := e }) ∧
      (firstFailure (googleEditionSteps re qcomPatcher2 galaxyPatcher2 m.getwVersion)
          m.cpio = some (k2, cpio, e) →
        JflteGoogleEditionRamdiskPatcher.patchRamdisk re qcomPatcher2 galaxyPatcher2 m =
          JflteGoogleEditionRamdiskPatcher.patchRamdisk re qcomPatcher galaxyPatcher m)) ∧
    (firstFailure (touchWizSteps qcomPatcher galaxyPatcher m.getwVersion) m.cpio =
        some (k, cpio, e) →
      JflteTouchWizRamdiskPatcher.patchRamdisk qcomPatcher galaxyPatcher m =
        (false, { m with cpio := cpio, error := e }) ∧
      (firstFailure (touchWizSteps qcomPatcher2 galaxyPatcher2 m.getwVersion) m.cpio =
          some (k2, cpio, e) →
        JflteTouchWizRamdiskPatcher.patchRamdisk qcomPatcher2 galaxyPatcher2 m =
          JflteTouchWizRamdiskPatcher.patchRamdisk qcomPatcher galaxyPatcher m)) := by
  refine ⟨?_, ?_, ?_⟩
  · intro h
    rw [aosp_patchRamdisk_eq_runSteps, aosp_patchRamdisk_eq_runSteps,
      runSteps_of_firstFailure _ m k cpio e h]
    exact ⟨rfl, fun h2 => runSteps_of_firstFailure _ m k2 cpio e h2⟩
  · intro h
    rw [googleEdition_patchRamdisk_eq_runSteps, googleEdition_patchRamdisk_eq_runSteps,
      runSteps_of_firstFailure _ m k cpio e h]
    exact ⟨rfl, fun h2 => runSteps_of_firstFailure _ m k2 cpio e h2⟩
  · intro h
    rw [touchWiz_patchRamdisk_eq_runSteps, touchWiz_patchRamdisk_eq_runSteps,
      runSteps_of_firstFailure _ m k cpio e h]
    exact ⟨rfl, fun h2 => runSteps_of_firstFailure _ m k2 cpio e h2⟩

/-- C11 (witness): the two runs of the AOSP pipeline on `exampleCpio`, failing at steps 1
and 2. -/
theorem C11_failure_records_error_only_witness :
    JflteAOSPRamdiskPatcher.patchRamdisk exampleQcomFailsAtAdd
        (JflteAOSPRamdiskPatcher.new exampleCpio) =
      (false, { JflteAOSPRamdiskPatcher.new exampleCpio with error := exampleError }) ∧
    JflteAOSPRamdiskPatcher.patchRamdisk exampleQcomFailsAtStrip
        (JflteAOSPRamdiskPatcher.new exampleCpio) =
      JflteAOSPRamdiskPatcher.patchRamdisk exampleQcomFailsAtAdd
        (JflteAOSPRamdiskPatcher.new exampleCpio) :=
  ⟨((C11_failure_records_error_only refSearch exampleQcomFailsAtAdd exampleQcomFailsAtStrip
      exampleGalaxyPatcher exampleGalaxyPatcher (JflteAOSPRamdiskPatcher.new exampleCpio)
      1 2 exampleCpio exampleError).1 rfl).1,
   ((C11_failure_records_error_only refSearch exampleQcomFailsAtAdd exampleQcomFailsAtStrip
      exampleGalaxyPatcher exampleGalaxyPatcher (JflteAOSPRamdiskPatcher.new exampleCpio)
      1 2 exampleCpio exampleError).1 rfl).2 rfl⟩

/-- C12: the skin-variant tag is fixed at construction from one existence check. For the
GoogleEdition and the TouchWiz pipeline the tag is `JellyBean` exactly when the archive
holds `MSM8960_lpm.rc` at construction and `KitKat` exactly when it does not; the
vendor-skin step of the run is the one for that tag, whatever the earlier steps do to the
archive, and the tag is the same after the run. -/
theorem C12_getwVersion_fixed_at_construction (re : RegexSearch)
    (qcomPatcher : QcomRamdiskPatcher) (galaxyPatcher : GalaxyRamdiskPatcher)
    (cpio : CpioFile) :
    ((JflteGoogleEditionRamdiskPatcher.new cpio).getwVersion = GetwVersion.JellyBean ↔
      cpio.«exists» Msm8960LpmRc = true) ∧
    ((JflteGoogleEditionRamdiskPatcher.new cpio).getwVersion = GetwVersion.KitKat ↔
      cpio.«exists» Msm8960LpmRc = false) ∧
    ((JflteTouchWizRamdiskPatcher.new cpio).getwVersion = GetwVersion.JellyBean ↔
      cpio.«exists» Msm8960LpmRc = true) ∧
    ((JflteTouchWizRamdiskPatcher.new cpio).getwVersion = GetwVersion.KitKat ↔
      cpio.«exists» Msm8960LpmRc = false) ∧
    JflteGoogleEditionRamdiskPatcher.patchRamdisk re qcomPatcher galaxyPatcher
        (JflteGoogleEditionRamdiskPatcher.new cpio) =
      runSteps [coreFixupsStep, chargerModeStep re, qcomPatcher.addMissingCacheInFstab [],
        qcomPatcher.stripManualCacheMounts "init.target.rc".toList,
        qcomPatcher.useGeneratedFstab "init.target.rc".toList,
        galaxyPatcher.getwModifyMsm8960LpmRc
          (if cpio.«exists» Msm8960LpmRc then GetwVersion.JellyBean else GetwVersion.KitKat)]
        (JflteGoogleEditionRamdiskPatcher.new cpio) ∧
    JflteTouchWizRamdiskPatcher.patchRamdisk qcomPatcher galaxyPatcher
        (JflteTouchWizRamdiskPatcher.new cpio) =
      runSteps [coreFixupsStep, qcomPatcher.addMissingCacheInFstab [],
        qcomPatcher.stripManualCacheMounts "init.target.rc".toList,
        qcomPatcher.useGeneratedFstab "init.target.rc".toList,
        galaxyPatcher.getwModifyMsm8960LpmRc
          (if cpio.«exists» Msm8960LpmRc then GetwVersion.JellyBean else GetwVersion.KitKat)]
        (JflteTouchWizRamdiskPatcher.new cpio) ∧
    (JflteGoogleEditionRamdiskPatcher.patchRamdisk re qcomPatcher galaxyPatcher
        (JflteGoogleEditionRamdiskPatcher.new cpio)).2.getwVersion =
      (JflteGoogleEditionRamdiskPatcher.new cpio).getwVersion ∧
    (JflteTouchWizRamdiskPatcher.patchRamdisk qcomPatcher galaxyPatcher
        (JflteTouchWizRamdiskPatcher.new cpio)).2.getwVersion =
      (JflteTouchWizRamdiskPatcher.new cpio).getwVersion := by
  have hge : (JflteGoogleEditionRamdiskPatcher.new cpio).getwVersion =
      (if cpio.«exists» Msm8960LpmRc then GetwVersion.JellyBean else GetwVersion.KitKat) := by
    simp only [JflteGoogleEditionRamdiskPatcher.new, JflteBaseRamdiskPatcher.new]
    cases cpio.«exists» Msm8960LpmRc <;> rfl
  have htw : (JflteTouchWizRamdiskPatcher.new cpio).getwVersion =
      (if cpio.«exists» Msm8960LpmRc then GetwVersion.JellyBean else GetwVersion.KitKat) := by
    simp only [JflteTouchWizRamdiskPatcher.new, JflteBaseRamdiskPatcher.new]
    cases cpio.«exists» Msm8960LpmRc <;> rfl
  refine ⟨?_, ?_, ?_, ?_, ?_, ?_, ?_, ?_⟩
  · rw [hge]; cases cpio.«exists» Msm8960LpmRc <;> simp
  · rw [hge]; cases cpio.«exists» Msm8960LpmRc <;> simp
  · rw [htw]; cases cpio.«exists» Msm8960LpmRc <;> simp
  · rw [htw]; cases cpio.«exists» Msm8960LpmRc <;> simp
  · rw [googleEdition_patchRamdisk_eq_runSteps, hge]
    rfl
  · rw [touchWiz_patchRamdisk_eq_runSteps, htw]
    rfl
  · rw [googleEdition_patchRamdisk_eq_runSteps]
    exact runSteps_getwVersion _ _
  · rw [touchWiz_patchRamdisk_eq_runSteps]
    exact runSteps_getwVersion _ _

/-- C12 (witness): `exampleCpioLegacy` holds `MSM8960_lpm.rc`, so the TouchWiz pipeline
gets the `JellyBean` tag, and keeps it while Core Fixups rewrites the archive. -/
theorem C12_getwVersion_fixed_at_construction_witness :
    exampleCpioLegacy.«exists» Msm8960LpmRc = true ∧
    (JflteTouchWizRamdiskPatcher.new exampleCpioLegacy).getwVersion =
      GetwVersion.JellyBean ∧
    (JflteTouchWizRamdiskPatcher.patchRamdisk exampleQcomPatcher exampleGalaxyPatcher
      (JflteTouchWizRamdiskPatcher.new exampleCpioLegacy)).2.getwVersion =
      GetwVersion.JellyBean :=
  ⟨by decide,
   (C12_getwVersion_fixed_at_construction refSearch exampleQcomPatcher exampleGalaxyPatcher
      exampleCpioLegacy).2.2.1.2 (by decide),
   ((C12_getwVersion_fixed_at_construction refSearch exampleQcomPatcher exampleGalaxyPatcher
      exampleCpioLegacy).2.2.2.2.2.2.2).trans (by decide)⟩

/-! ## Frame of the two steps, and the identifiers -/

/-- Rewriting the content of an entry leaves the sequence of entry names as it was. -/
theorem CpioFile.map_fst_setContents (a : CpioFile) (name data : List Char) :
    (a.setContents name data).map Prod.fst = a.map Prod.fst := by
  induction a with
  | nil => rfl
  | cons e rest ih =>
    obtain ⟨n, d⟩ := e
    by_cases hn : n = name
    · simp [CpioFile.setContents, hn]
    · simp only [CpioFile.setContents, if_neg hn, List.map_cons, ih]

/-- The archive after `fixDataMediaContext` is the archive before, or it with
`file_contexts` rewritten. -/
theorem fixDataMediaContext_cpio (m : CoreRamdiskPatcher.Impl) :
    (CoreRamdiskPatcher.fixDataMediaContext m).2.cpio = m.cpio ∨
    ∃ data, (CoreRamdiskPatcher.fixDataMediaContext m).2.cpio =
      m.cpio.setContents FileContexts data := by
  unfold CoreRamdiskPatcher.fixDataMediaContext
  split
  · exact Or.inl rfl
  · exact Or.inr ⟨_, rfl⟩

/-- The archive after `geChargerModeMount` is the archive before, or it with `init.rc`
rewritten. -/
theorem geChargerModeMount_cpio (re : RegexSearch) (m : JflteBaseRamdiskPatcher.Impl) :
    (JflteGoogleEditionRamdiskPatcher.geChargerModeMount re m).2.cpio = m.cpio ∨
    ∃ data, (JflteGoogleEditionRamdiskPatcher.geChargerModeMount re m).2.cpio =
      m.cpio.setContents InitRc data := by
  by_cases h : m.cpio.contents InitRc = []
  · rw [geChargerModeMount_of_nil re m h]
    exact Or.inl rfl
  · rw [geChargerModeMount_of_ne_nil re m h]
    exact Or.inr ⟨_, rfl⟩

/-- C13: the two steps defined in this code create and delete no entry and each writes
only its own entry. After `fixDataMediaContext` the sequence of entry names and the
answer of `exists` for every name are as before, and every entry other than
`file_contexts` reads as before; after `geChargerModeMount`, whether it succeeds or
fails, the same holds with `init.rc` as the only entry that may change. -/
theorem C13_steps_write_only_their_entry (re : RegexSearch) (mc : CoreRamdiskPatcher.Impl)
    (m : JflteBaseRamdiskPatcher.Impl) :
    ((CoreRamdiskPatcher.fixDataMediaContext mc).2.cpio.map Prod.fst =
        mc.cpio.map Prod.fst ∧
      (∀ name, (CoreRamdiskPatcher.fixDataMediaContext mc).2.cpio.«exists» name =
        mc.cpio.«exists» name) ∧
      (∀ name, name ≠ FileContexts →
        (CoreRamdiskPatcher.fixDataMediaContext mc).2.cpio.contents name =
          mc.cpio.contents name)) ∧
    ((JflteGoogleEditionRamdiskPatcher.geChargerModeMount re m).2.cpio.map Prod.fst =
        m.cpio.map Prod.fst ∧
      (∀ name, (JflteGoogleEditionRamdiskPatcher.geChargerModeMount re m).2.cpio.«exists»
        name = m.cpio.«exists» name) ∧
      (∀ name, name ≠ InitRc →
        (JflteGoogleEditionRamdiskPatcher.geChargerModeMount re m).2.cpio.contents name =
          m.cpio.contents name)) := by
  constructor
  · rcases fixDataMediaContext_cpio mc with h | ⟨data, h⟩
    · rw [h]
      exact ⟨rfl, fun _ => rfl, fun _ _ => rfl⟩
    · rw [h]
      exact ⟨CpioFile.map_fst_setContents _ _ _,
        fun name => CpioFile.exists_setContents _ _ _ name,
        fun name hn => CpioFile.contents_setContents_of_ne _ _ _ name hn⟩
  · rcases geChargerModeMount_cpio re m with h | ⟨data, h⟩
    · rw [h]
      exact ⟨rfl, fun _ => rfl, fun _ _ => rfl⟩
    · rw [h]
      exact ⟨CpioFile.map_fst_setContents _ _ _,
        fun name => CpioFile.exists_setContents _ _ _ name,
        fun name hn => CpioFile.contents_setContents_of_ne _ _ _ name hn⟩

/-- C13 (witness): on `exampleCpioFull` both steps rewrite their entry, and
`init.target.rc` reads as before after each of them. -/
theorem C13_steps_write_only_their_entry_witness :
    (CoreRamdiskPatcher.fixDataMediaContext
        (CoreRamdiskPatcher.new exampleCpioFull)).2.cpio.contents "init.target.rc".toList =
      exampleCpioFull.contents "init.target.rc".toList ∧
    (JflteGoogleEditionRamdiskPatcher.geChargerModeMount refSearch
        (JflteGoogleEditionRamdiskPatcher.new exampleCpioFull)).2.cpio.contents
          "init.target.rc".toList =
      exampleCpioFull.contents "init.target.rc".toList :=
  ⟨(C13_steps_write_only_their_entry refSearch (CoreRamdiskPatcher.new exampleCpioFull)
      (JflteGoogleEditionRamdiskPatcher.new exampleCpioFull)).1.2.2 _ (by decide),
   (C13_steps_write_only_their_entry refSearch (CoreRamdiskPatcher.new exampleCpioFull)
      (JflteGoogleEditionRamdiskPatcher.new exampleCpioFull)).2.2.2 _ (by decide)⟩

/-- C14: each pipeline exposes through `id()` a constant identifier, the same for every
state: `jflte/AOSP/AOSP`, `jflte/GoogleEdition/GoogleEdition`, `jflte/TouchWiz/TouchWiz`.
Split on `/`, each has exactly three components, none of them empty, and the three
identifiers are pairwise distinct. -/
theorem C14_pipeline_identifiers (m : JflteBaseRamdiskPatcher.Impl) :
    JflteAOSPRamdiskPatcher.id m = "jflte/AOSP/AOSP".toList ∧
    JflteGoogleEditionRamdiskPatcher.id m = "jflte/GoogleEdition/GoogleEdition".toList ∧
    JflteTouchWizRamdiskPatcher.id m = "jflte/TouchWiz/TouchWiz".toList ∧
    split (is_any_of "/".toList) (JflteAOSPRamdiskPatcher.id m) =
      ["jflte".toList, "AOSP".toList, "AOSP".toList] ∧
    split (is_any_of "/".toList) (JflteGoogleEditionRamdiskPatcher.id m) =
      ["jflte".toList, "GoogleEdition".toList, "GoogleEdition".toList] ∧
    split (is_any_of "/".toList) (JflteTouchWizRamdiskPatcher.id m) =
      ["jflte".toList, "TouchWiz".toList, "TouchWiz".toList] ∧
    JflteAOSPRamdiskPatcher.id m ≠ JflteGoogleEditionRamdiskPatcher.id m ∧
    JflteAOSPRamdiskPatcher.id m ≠ JflteTouchWizRamdiskPatcher.id m ∧
    JflteGoogleEditionRamdiskPatcher.id m ≠ JflteTouchWizRamdiskPatcher.id m := by
  simp only [JflteAOSPRamdiskPatcher.id, JflteGoogleEditionRamdiskPatcher.id,
    JflteTouchWizRamdiskPatcher.id]
  decide

/-! ## Injection points and line accounting -/

theorem length_injectionPoints (re : RegexSearch) (ls : List (List Char)) :
    ∀ (prev : List Char), (injectionPoints re prev ls).length = ls.length := by
  induction ls with
  | nil => intro _; rfl
  | cons l rest ih =>
    intro prev
    unfold injectionPoints
    split <;> simp [ih]

/-- The loop writes the lines with the injection points replaced. -/
theorem geChargerModeMountLoop_eq_replace (re : RegexSearch) (ls : List (List Char)) :
    ∀ (prev : List Char), geChargerModeMountLoop re prev ls =
      replaceInjectionPoints ls (injectionPoints re prev ls) := by
  induction ls with
  | nil => intro _; rfl
  | cons l rest ih =>
    intro prev
    by_cases h : re l mountSystemRegex = true ∧ re prev onChargerRegex = true
    · rw [geChargerModeMountLoop_cons_pos re prev l rest h.1 h.2, ih]
      conv_rhs => unfold injectionPoints
      simp [h.1, h.2, replaceInjectionPoints]
    · rw [geChargerModeMountLoop_cons_neg re prev l rest h, ih]
      conv_rhs => unfold injectionPoints
      rw [if_neg (by simpa using h)]
      simp [replaceInjectionPoints]

theorem length_replaceInjectionPoints (ls : List (List Char)) :
    ∀ (flags : List Bool), flags.length = ls.length →
      (replaceInjectionPoints ls flags).length = ls.length + flags.count true := by
  induction ls with
  | nil =>
    intro flags h
    cases flags with
    | nil => rfl
    | cons f fs => simp at h
  | cons l rest ih =>
    intro flags h
    cases flags with
    | nil => simp at h
    | cons f fs =>
      have hfs : fs.length = rest.length := by simpa using h
      cases f with
      | true =>
        simp only [replaceInjectionPoints, if_true, List.length_append, List.length_cons,
          List.length_nil, ih fs hfs, List.count_cons_self]
        omega
      | false =>
        simp only [replaceInjectionPoints, Bool.false_eq_true, if_false, List.length_append,
          List.length_cons, List.length_nil, ih fs hfs]
        rw [List.count_cons_of_ne (by decide)]
        omega

theorem replaceInjectionPoints_append (pre : List (List Char)) :
    ∀ (fpre : List Bool) (ls : List (List Char)) (flags : List Bool),
      fpre.length = pre.length →
      replaceInjectionPoints (pre ++ ls) (fpre ++ flags) =
        replaceInjectionPoints pre fpre ++ replaceInjectionPoints ls flags := by
  induction pre with
  | nil =>
    intro fpre ls flags h
    cases fpre with
    | nil => cases ls <;> rfl
    | cons f fs => simp at h
  | cons l rest ih =>
    intro fpre ls flags h
    cases fpre with
    | nil => simp at h
    | cons f fs =>
      have hfs : fs.length = rest.length := by simpa using h
      show (if f = true then [startLine, waitLine] else [l]) ++
          replaceInjectionPoints (rest ++ ls) (fs ++ flags) =
        ((if f = true then [startLine, waitLine] else [l]) ++
          replaceInjectionPoints rest fs) ++ replaceInjectionPoints ls flags
      rw [ih fs ls flags hfs, List.append_assoc]

/-- After an injection point the next line is none, when the wait line does not match
`on\s+charger`. -/
theorem injectionPoints_not_consecutive (re : RegexSearch)
    (hw : re waitLine onChargerRegex = false) (ls : List (List Char)) :
    ∀ (prev : List Char) (pre : List Bool) (b : Bool) (post : List Bool),
      injectionPoints re prev ls = pre ++ true :: b :: post → b = false := by
  induction ls with
  | nil =>
    intro prev pre b post h
    simp [injectionPoints] at h
  | cons l rest ih =>
    intro prev pre b post h
    unfold injectionPoints at h
    cases pre with
    | nil =>
      split at h
      · simp only [List.nil_append, List.cons.injEq, true_and] at h
        cases rest with
        | nil => simp [injectionPoints] at h
        | cons l2 rest2 =>
          unfold injectionPoints at h
          simp only [hw, Bool.and_false, Bool.false_eq_true, if_false, List.cons.injEq] at h
          exact h.1.symm
      · simp at h
    | cons p pre2 =>
      split at h
      · simp only [List.cons_append, List.cons.injEq] at h
        exact ih _ pre2 b post h.2
      · simp only [List.cons_append, List.cons.injEq] at h
        exact ih _ pre2 b post h.2

/-- C15: overlapping matches are not double-inserted in one pass. With a regex library
that finds no `on\s+charger` in the wait line: at an injection the loop goes on with the
wait line as its previous line; the input line after an injection point is therefore kept
as it is; and in the scan of every `init.rc` no two consecutive input lines are both
injection points. -/
theorem C15_no_double_injection (re : RegexSearch)
    (hw : re waitLine onChargerRegex = false) :
    (∀ (prev line : List Char) (rest : List (List Char)),
      re line mountSystemRegex = true → re prev onChargerRegex = true →
      geChargerModeMountLoop re prev (line :: rest) =
        startLine :: waitLine :: geChargerModeMountLoop re waitLine rest) ∧
    (∀ (prev line next : List Char) (rest : List (List Char)),
      re line mountSystemRegex = true → re prev onChargerRegex = true →
      geChargerModeMountLoop re prev (line :: next :: rest) =
        startLine :: waitLine :: next :: geChargerModeMountLoop re next rest) ∧
    (∀ (contents : List Char) (pre : List Bool) (b : Bool) (post : List Bool),
      injectionPoints re [] (split (is_any_of nl) contents) = pre ++ true :: b :: post →
      b = false) := by
  refine ⟨fun prev line rest h1 h2 => geChargerModeMountLoop_cons_pos re prev line rest h1 h2,
    ?_, fun contents pre b post h => injectionPoints_not_consecutive re hw _ [] pre b post h⟩
  intro prev line next rest h1 h2
  rw [geChargerModeMountLoop_cons_pos re prev line _ h1 h2,
    geChargerModeMountLoop_cons_neg re waitLine next rest (by simp [hw])]

/-- C15 (witness): `on charger` followed by two mounts of `/system` in a row. The second
mount line is kept, only the first is an injection point, and the output of
`geChargerModeMount` holds the start line exactly once. -/
theorem C15_no_double_injection_witness :
    geChargerModeMountLoop refSearch exampleChargerLine
        ["    mount /system".toList, "    mount /system".toList] =
      [startLine, waitLine, "    mount /system".toList] ∧
    injectionPoints refSearch [] (split (is_any_of nl) exampleInitRcTwoMounts) =
      [false, true, false] ∧
    (split (is_any_of nl) ((JflteGoogleEditionRamdiskPatcher.geChargerModeMount refSearch
      (JflteGoogleEditionRamdiskPatcher.new
        [(InitRc, exampleInitRcTwoMounts)])).2.cpio.contents InitRc)).count startLine = 1 :=
  ⟨(C15_no_double_injection refSearch (by decide)).2.1 exampleChargerLine
      "    mount /system".toList "    mount /system".toList [] (by decide) (by decide),
   by decide, by decide⟩

/-- C18: line accounting of `geChargerModeMount`. For every non-empty `init.rc` with `n`
lines and `k` injection points the patch succeeds and the output has exactly `n + k + 4`
lines: they are the input lines, each injection point replaced in its place by the start
line followed by the wait line and every other line unchanged in its place, followed by
the four stanza lines. -/
theorem C18_geChargerModeMount_line_accounting (re : RegexSearch)
    (m : JflteBaseRamdiskPatcher.Impl) (hne : m.cpio.contents InitRc ≠ []) :
    (JflteGoogleEditionRamdiskPatcher.geChargerModeMount re m).1 = true ∧
    (injectionPoints re [] (split (is_any_of nl) (m.cpio.contents InitRc))).length =
      (split (is_any_of nl) (m.cpio.contents InitRc)).length ∧
    (split (is_any_of nl)
        ((JflteGoogleEditionRamdiskPatcher.geChargerModeMount re m).2.cpio.contents
          InitRc)).length =
      (split (is_any_of nl) (m.cpio.contents InitRc)).length +
        (injectionPoints re [] (split (is_any_of nl) (m.cpio.contents InitRc))).count true +
        4 ∧
    split (is_any_of nl)
        ((JflteGoogleEditionRamdiskPatcher.geChargerModeMount re m).2.cpio.contents InitRc) =
      replaceInjectionPoints (split (is_any_of nl) (m.cpio.contents InitRc))
          (injectionPoints re [] (split (is_any_of nl) (m.cpio.contents InitRc))) ++
        serviceStanza ∧
    (∀ (pre post : List (List Char)) (line : List Char) (fpre fpost : List Bool) (f : Bool),
      split (is_any_of nl) (m.cpio.contents InitRc) = pre ++ line :: post →
      injectionPoints re [] (split (is_any_of nl) (m.cpio.contents InitRc)) =
        fpre ++ f :: fpost →
      fpre.length = pre.length →
      split (is_any_of nl)
          ((JflteGoogleEditionRamdiskPatcher.geChargerModeMount re m).2.cpio.contents
            InitRc) =
        replaceInjectionPoints pre fpre ++ (if f then [startLine, waitLine] else [line]) ++
          replaceInjectionPoints post fpost ++ serviceStanza) := by
  have hl := geChargerModeMount_lines re m hne
  rw [geChargerModeMountLoop_eq_replace] at hl
  refine ⟨by rw [geChargerModeMount_of_ne_nil re m hne], length_injectionPoints re _ [], ?_,
    hl, ?_⟩
  · rw [hl, List.length_append,
      length_replaceInjectionPoints _ _ (length_injectionPoints re _ [])]
    rfl
  · intro pre post line fpre fpost f hs hf hlen
    rw [hl, hf, hs, replaceInjectionPoints_append pre fpre _ _ hlen]
    simp [replaceInjectionPoints]

/-- C18 (witness): `exampleCpio`, whose `init.rc` has four lines and one injection
point, gets nine lines. -/
theorem C18_geChargerModeMount_line_accounting_witness :
    (split (is_any_of nl) (exampleCpio.contents InitRc)).length = 4 ∧
    (injectionPoints refSearch [] (split (is_any_of nl)
      (exampleCpio.contents InitRc))).count true = 1 ∧
    (split (is_any_of nl) ((JflteGoogleEditionRamdiskPatcher.geChargerModeMount refSearch
      (JflteGoogleEditionRamdiskPatcher.new exampleCpio)).2.cpio.contents InitRc)).length =
      4 + 1 + 4 :=
  ⟨by decide, by decide,
   (C18_geChargerModeMount_line_accounting refSearch
      (JflteGoogleEditionRamdiskPatcher.new exampleCpio) (by decide)).2.2.1.trans
        (by decide)⟩

/-! ## Missing entries and idempotence of Core Fixups -/

theorem fixDataMediaContext_exists (m : CoreRamdiskPatcher.Impl) (name : List Char) :
    (CoreRamdiskPatcher.fixDataMediaContext m).2.cpio.«exists» name =
      m.cpio.«exists» name := by
  rcases fixDataMediaContext_cpio m with h | ⟨data, h⟩
  · rw [h]
  · rw [h]
    exact CpioFile.exists_setContents _ _ _ name

/-- The content of `file_contexts` after `fixDataMediaContext` appended its line. -/
theorem fixDataMediaContext_contents_of_no_line (m : CoreRamdiskPatcher.Impl)
    (h : m.cpio.«exists» FileContexts = true)
    (hno : ∀ l ∈ split (is_any_of nl) (m.cpio.contents FileContexts),
      starts_with l "/data/media".toList = false) :
    (CoreRamdiskPatcher.fixDataMediaContext m).2.cpio.contents FileContexts =
      m.cpio.contents FileContexts ++ nl ++ DataMediaContext := by
  rw [fixDataMediaContext_of_no_line m h hno]
  show (m.cpio.setContents FileContexts _).contents FileContexts = _
  rw [CpioFile.contents_setContents _ _ _ h,
    join_append nl _ _ (split_ne_nil _ _) (by simp), join_split]
  rfl

/-- C16: the GoogleEdition pipeline on an archive without `init.rc`. `patchRamdisk`
returns failure with the entry-not-found error for `init.rc`; the archive at failure is
the initial archive with Core Fixups applied, whatever the platform and vendor-skin
patchers are, so none of their steps has run; and an existing `file_contexts` without a
`/data/media` line has gained the synthetic line. -/
theorem C16_googleEdition_missing_init_rc (re : RegexSearch)
    (qcomPatcher : QcomRamdiskPatcher) (galaxyPatcher : GalaxyRamdiskPatcher)
    (m : JflteBaseRamdiskPatcher.Impl) (h : m.cpio.«exists» InitRc = false) :
    JflteGoogleEditionRamdiskPatcher.patchRamdisk re qcomPatcher galaxyPatcher m =
      (false, { m with
        cpio := (CoreRamdiskPatcher.patchRamdisk (CoreRamdiskPatcher.new m.cpio)).2.cpio,
        error := { errorCode := ErrorCode.CpioFileNotExistError,
                   filename := "init.rc".toList } }) ∧
    (∀ (qcomPatcher2 : QcomRamdiskPatcher) (galaxyPatcher2 : GalaxyRamdiskPatcher),
      JflteGoogleEditionRamdiskPatcher.patchRamdisk re qcomPatcher2 galaxyPatcher2 m =
        JflteGoogleEditionRamdiskPatcher.patchRamdisk re qcomPatcher galaxyPatcher m) ∧
    (m.cpio.«exists» FileContexts = true →
      (∀ l ∈ split (is_any_of nl) (m.cpio.contents FileContexts),
        starts_with l "/data/media".toList = false) →
      (JflteGoogleEditionRamdiskPatcher.patchRamdisk re qcomPatcher galaxyPatcher
          m).2.cpio.contents FileContexts =
        m.cpio.contents FileContexts ++ "\n".toList ++
          "/data/media(/.*)? u:object_r:media_rw_data_file:s0".toList) := by
  have hc : (CoreRamdiskPatcher.fixDataMediaContext
      (CoreRamdiskPatcher.new m.cpio)).2.cpio.contents InitRc = [] := by
    apply CpioFile.contents_of_not_exists
    rw [fixDataMediaContext_exists]
    exact h
  have hrun : ∀ (q : QcomRamdiskPatcher) (g : GalaxyRamdiskPatcher),
      JflteGoogleEditionRamdiskPatcher.patchRamdisk re q g m =
        (false, { m with
          cpio := (CoreRamdiskPatcher.patchRamdisk (CoreRamdiskPatcher.new m.cpio)).2.cpio,
          error := { errorCode := ErrorCode.CpioFileNotExistError,
                     filename := "init.rc".toList } }) := by
    intro q g
    rw [googleEdition_patchRamdisk_eq_runSteps, core_patchRamdisk_eq]
    apply runSteps_first_failure _ m 1 (chargerModeStep re)
    · rfl
    · show applySteps [coreFixupsStep] m.cpio = _
      simp only [applySteps, coreFixupsStep_eq]
    · simp only [chargerModeStep]
      rw [geChargerModeMount_of_nil re (JflteBaseRamdiskPatcher.new _) hc]
      rfl
  refine ⟨hrun _ _, fun q2 g2 => by rw [hrun q2 g2, hrun qcomPatcher galaxyPatcher], ?_⟩
  intro hfc hno
  rw [hrun, core_patchRamdisk_eq]
  exact fixDataMediaContext_contents_of_no_line (CoreRamdiskPatcher.new m.cpio) hfc hno

/-- C16 (witness): `exampleCpioLegacy` has no `init.rc` and a context table without a
`/data/media` line. -/
theorem C16_googleEdition_missing_init_rc_witness :
    exampleCpioLegacy.«exists» InitRc = false ∧
    JflteGoogleEditionRamdiskPatcher.patchRamdisk refSearch exampleQcomPatcher
        exampleGalaxyPatcher (JflteGoogleEditionRamdiskPatcher.new exampleCpioLegacy) =
      (false, { JflteGoogleEditionRamdiskPatcher.new exampleCpioLegacy with
        cpio := (exampleCpioLegacy.setContents FileContexts
          (exampleFileContexts ++ nl ++ DataMediaContext)),
        error := { errorCode := ErrorCode.CpioFileNotExistError,
                   filename := "init.rc".toList } }) :=
  ⟨by decide, (C16_googleEdition_missing_init_rc refSearch exampleQcomPatcher
    exampleGalaxyPatcher (JflteGoogleEditionRamdiskPatcher.new exampleCpioLegacy)
    (by decide)).1⟩

/-- C17: the AOSP pipeline on an archive without `file_contexts`. Core Fixups leaves the
archive as it is (`init.rc` included), and the outcome of `patchRamdisk` (return value,
error and final archive) is that of running only `addMissingCacheInFstab` with the empty
list, `stripManualCacheMounts("init.target.rc")` and `useGeneratedFstab("init.target.rc")`
in order on the original archive; so the run succeeds with their archive whenever these
three calls succeed. -/
theorem C17_aosp_without_file_contexts (qcomPatcher : QcomRamdiskPatcher)
    (m : JflteBaseRamdiskPatcher.Impl) (h : m.cpio.«exists» FileContexts = false) :
    (CoreRamdiskPatcher.patchRamdisk (CoreRamdiskPatcher.new m.cpio)).2.cpio = m.cpio ∧
    JflteAOSPRamdiskPatcher.patchRamdisk qcomPatcher m =
      runSteps [qcomPatcher.addMissingCacheInFstab [],
        qcomPatcher.stripManualCacheMounts "init.target.rc".toList,
        qcomPatcher.useGeneratedFstab "init.target.rc".toList] m ∧
    (∀ cpio, applySteps [qcomPatcher.addMissingCacheInFstab [],
        qcomPatcher.stripManualCacheMounts "init.target.rc".toList,
        qcomPatcher.useGeneratedFstab "init.target.rc".toList] m.cpio = Except.ok cpio →
      JflteAOSPRamdiskPatcher.patchRamdisk qcomPatcher m = (true, { m with cpio := cpio })) ∧
    (∀ k cpio e, firstFailure [qcomPatcher.addMissingCacheInFstab [],
        qcomPatcher.stripManualCacheMounts "init.target.rc".toList,
        qcomPatcher.useGeneratedFstab "init.target.rc".toList] m.cpio = some (k, cpio, e) →
      JflteAOSPRamdiskPatcher.patchRamdisk qcomPatcher m =
        (false, { m with cpio := cpio, error := e })) := by
  have hcore : (CoreRamdiskPatcher.fixDataMediaContext
      (CoreRamdiskPatcher.new m.cpio)).2.cpio = m.cpio := by
    rw [fixDataMediaContext_of_not_exists (CoreRamdiskPatcher.new m.cpio) h]
    rfl
  have hrun : JflteAOSPRamdiskPatcher.patchRamdisk qcomPatcher m =
      runSteps [qcomPatcher.addMissingCacheInFstab [],
        qcomPatcher.stripManualCacheMounts "init.target.rc".toList,
        qcomPatcher.useGeneratedFstab "init.target.rc".toList] m := by
    rw [aosp_patchRamdisk_eq_runSteps]
    show runSteps (coreFixupsStep :: platformSteps qcomPatcher) m = _
    conv_lhs => unfold runSteps
    simp only [coreFixupsStep_eq, hcore]
    rfl
  refine ⟨by rw [core_patchRamdisk_eq]; exact hcore, hrun, ?_, ?_⟩
  · intro cpio hok
    rw [hrun]
    exact runSteps_all_ok _ m cpio hok
  · intro k cpio e hf
    rw [hrun]
    exact runSteps_of_firstFailure _ m k cpio e hf

/-- C17 (witness): an archive with `init.rc` and `init.target.rc` only: the run succeeds
and leaves the archive as it was. -/
theorem C17_aosp_without_file_contexts_witness :
    JflteAOSPRamdiskPatcher.patchRamdisk exampleQcomPatcher
        (JflteAOSPRamdiskPatcher.new
          [(InitRc, exampleInitRc), ("init.target.rc".toList, "on fs\n".toList)]) =
      (true, JflteAOSPRamdiskPatcher.new
        [(InitRc, exampleInitRc), ("init.target.rc".toList, "on fs\n".toList)]) :=
  (C17_aosp_without_file_contexts exampleQcomPatcher
    (JflteAOSPRamdiskPatcher.new
      [(InitRc, exampleInitRc), ("init.target.rc".toList, "on fs\n".toList)])
    (by decide)).2.2.1 _ rfl

/-- C19: `geChargerModeMount` decides absence by the emptiness of the content it reads.
When `init.rc` reads as empty, whether the entry exists with zero bytes or does not
exist, it returns failure, records `CpioFileNotExistError` for `init.rc` and leaves the
archive as it was; and it succeeds exactly when the content read is not empty. -/
theorem C19_geChargerModeMount_emptiness (re : RegexSearch)
    (m : JflteBaseRamdiskPatcher.Impl) :
    (m.cpio.contents InitRc = [] →
      JflteGoogleEditionRamdiskPatcher.geChargerModeMount re m =
        (false, { m with error := { errorCode := ErrorCode.CpioFileNotExistError,
                                    filename := "init.rc".toList } })) ∧
    (m.cpio.«exists» InitRc = true → m.cpio.contents InitRc = [] →
      (JflteGoogleEditionRamdiskPatcher.geChargerModeMount re m).1 = false ∧
      JflteBaseRamdiskPatcher.error
          (JflteGoogleEditionRamdiskPatcher.geChargerModeMount re m).2 =
        { errorCode := ErrorCode.CpioFileNotExistError, filename := "init.rc".toList } ∧
      (JflteGoogleEditionRamdiskPatcher.geChargerModeMount re m).2.cpio = m.cpio) ∧
    (m.cpio.«exists» InitRc = false →
      JflteGoogleEditionRamdiskPatcher.geChargerModeMount re m =
        (false, { m with error := { errorCode := ErrorCode.CpioFileNotExistError,
                                    filename := "init.rc".toList } })) ∧
    ((JflteGoogleEditionRamdiskPatcher.geChargerModeMount re m).1 = true ↔
      m.cpio.contents InitRc ≠ []) := by
  refine ⟨fun h => geChargerModeMount_of_nil re m h, ?_, ?_, ?_⟩
  · intro _ h
    rw [geChargerModeMount_of_nil re m h]
    exact ⟨rfl, rfl, rfl⟩
  · intro h
    exact geChargerModeMount_of_nil re m (CpioFile.contents_of_not_exists _ _ h)
  · by_cases h : m.cpio.contents InitRc = []
    · rw [geChargerModeMount_of_nil re m h]
      simp [h]
    · rw [geChargerModeMount_of_ne_nil re m h]
      simp [h]

/-- C19 (witness): an archive whose `init.rc` exists with zero bytes. -/
theorem C19_geChargerModeMount_emptiness_witness :
    exampleCpioEmptyInitRc.«exists» InitRc = true ∧
    exampleCpioEmptyInitRc.contents InitRc = [] ∧
    (JflteGoogleEditionRamdiskPatcher.geChargerModeMount refSearch
      (JflteGoogleEditionRamdiskPatcher.new exampleCpioEmptyInitRc)).1 = false ∧
    (JflteGoogleEditionRamdiskPatcher.geChargerModeMount refSearch
      (JflteGoogleEditionRamdiskPatcher.new exampleCpioEmptyInitRc)).2.cpio =
        exampleCpioEmptyInitRc :=
  ⟨by decide, by decide,
   ((C19_geChargerModeMount_emptiness refSearch
      (JflteGoogleEditionRamdiskPatcher.new exampleCpioEmptyInitRc)).2.1 (by decide)
      (by decide)).1,
   ((C19_geChargerModeMount_emptiness refSearch
      (JflteGoogleEditionRamdiskPatcher.new exampleCpioEmptyInitRc)).2.1 (by decide)
      (by decide)).2.2⟩

/-- C20: Core Fixups is idempotent. For every state, applying `fixDataMediaContext` (or
`CoreRamdiskPatcher::patchRamdisk`) to the state a first application has left gives that
same state again, with success. -/
theorem C20_fixDataMediaContext_idempotent (m : CoreRamdiskPatcher.Impl) :
    CoreRamdiskPatcher.fixDataMediaContext (CoreRamdiskPatcher.fixDataMediaContext m).2 =
      CoreRamdiskPatcher.fixDataMediaContext m ∧
    CoreRamdiskPatcher.patchRamdisk (CoreRamdiskPatcher.patchRamdisk m).2 =
      CoreRamdiskPatcher.patchRamdisk m := by
  have hfix : CoreRamdiskPatcher.fixDataMediaContext
      (CoreRamdiskPatcher.fixDataMediaContext m).2 =
      CoreRamdiskPatcher.fixDataMediaContext m := by
    cases he : m.cpio.«exists» FileContexts with
    | false =>
      rw [fixDataMediaContext_of_not_exists m he]
      exact fixDataMediaContext_of_not_exists m he
    | true =>
      by_cases hsome : ∃ l ∈ split (is_any_of nl) (m.cpio.contents FileContexts),
          starts_with l "/data/media".toList = true
      · rw [fixDataMediaContext_of_line m he hsome]
        exact fixDataMediaContext_of_line m he hsome
      · have hno : ∀ l ∈ split (is_any_of nl) (m.cpio.contents FileContexts),
            starts_with l "/data/media".toList = false := by
          intro l hl
          cases hs : starts_with l "/data/media".toList with
          | false => rfl
          | true => exact absurd ⟨l, hl, hs⟩ hsome
        have hc : (CoreRamdiskPatcher.fixDataMediaContext m).2.cpio.contents FileContexts =
            join nl (split (is_any_of nl) (m.cpio.contents FileContexts) ++
              [DataMediaContext]) := by
          rw [fixDataMediaContext_of_no_line m he hno]
          exact CpioFile.contents_setContents _ _ _ he
        have he2 : (CoreRamdiskPatcher.fixDataMediaContext m).2.cpio.«exists»
            FileContexts = true := by
          rw [fixDataMediaContext_exists]
          exact he
        have hfst : CoreRamdiskPatcher.fixDataMediaContext m =
            (true, (CoreRamdiskPatcher.fixDataMediaContext m).2) := by
          rw [← fixDataMediaContext_fst m]
        rw [fixDataMediaContext_of_line _ he2, ← hfst]
        refine ⟨DataMediaContext, ?_, by decide⟩
        rw [hc, split_join _ (by simp)]
        · simp
        · intro l hl
          rcases List.mem_append.1 hl with h1 | h1
          · exact not_mem_of_mem_split _ l h1
          · rw [List.mem_singleton.1 h1]
            decide
  refine ⟨hfix, ?_⟩
  rw [core_patchRamdisk_eq, core_patchRamdisk_eq, hfix]

